import Mathlib

/-!
Verification development for the TheLounge answering-machine plugin
(message handler, rule store, merge, validator), as a shallow embedding
of `src/message-handler.js`, `src/rule-manager.js` and
`src/rule-validator.js` in Lean 4.

Modelling conventions (documented divergences are noted per definition):
* JavaScript numbers are modelled as rationals (`ℚ`); `NaN`/`Infinity`
  are outside the modelled subset.
* `String.prototype.replace(/pat/g, repl)` with a plain replacement
  string is modelled as global, non-overlapping, left-to-right literal
  substitution (the JS `$`-pattern interpretation of the replacement
  string is outside the modelled subset; the replacement strings used by
  the plugin are IRC nicknames, which cannot contain `$`).
* The regular-expression engine models the subset of JS regex syntax the
  plugin's claims exercise: literal characters, `.`, escapes
  (`\w \W \d \D \s \S`, control escapes, and escaped punctuation),
  capturing groups, the quantifiers `* + ?`, and the anchors `^ $`.
  Character classes `[...]`, alternation `|`, `{n,m}` quantifiers and
  back-references are reported as unsupported by the modelled parser.
  Of the flag string only the validity check and the `i` flag are given
  semantics. Matching is leftmost, greedy, with backtracking, as in JS.
-/

set_option autoImplicit false

namespace AM

/-- Global, non-overlapping, left-to-right literal replacement on
character lists, fuelled (structurally) by the input length: one unit
of fuel is spent per position, so fuel equal to the input length is
always enough. -/
def replaceAllListF (pat rep : List Char) : Nat → List Char → List Char
  | _, [] => []
  | 0, l => l
  | fuel + 1, c :: rest =>
    if pat ≠ [] ∧ pat.isPrefixOf (c :: rest) then
      rep ++ replaceAllListF pat rep fuel ((c :: rest).drop pat.length)
    else
      c :: replaceAllListF pat rep fuel rest

/-- Global, non-overlapping, left-to-right literal replacement on
character lists: the model of `String.prototype.replace(/pat/g, rep)`
for a literal pattern `pat`. -/
def replaceAllList (pat rep l : List Char) : List Char :=
  replaceAllListF pat rep l.length l

/-- String-level wrapper for `replaceAllList`. -/
def replaceAllStr (pat rep s : String) : String :=
  ⟨replaceAllList pat.data rep.data s.data⟩

/-- JS `x || d` for an optional string `x` (both `undefined` and the
empty string are falsy). -/
def jsOrStr (o : Option String) (d : String) : String :=
  match o with
  | some s => if s = "" then d else s
  | none => d

/-- JS `x || d` for an optional number `x` (`undefined` and `0` are
falsy; `NaN` is outside the modelled subset). -/
def jsOrNum (o : Option ℚ) (d : ℚ) : ℚ :=
  match o with
  | some q => if q = 0 then d else q
  | none => d

/-- ASCII lower-casing of a character (the fragment of JS
`toLowerCase` relevant to server, channel and nick names). -/
def charLower (c : Char) : Char := c.toLower

/-- ASCII lower-casing of a string, character by character. -/
def lowerStr (s : String) : String := ⟨s.data.map charLower⟩

/-- Is a character JS whitespace (the common subset)? -/
def isJsWs (c : Char) : Bool :=
  c = ' ' || c = '\t' || c = '\n' || c = '\r' || c = '\x0b' || c = '\x0c'

/-- The model of `String.prototype.trim`: strip whitespace from both
ends. -/
def jsTrim (s : String) : String :=
  ⟨((s.data.dropWhile isJsWs).reverse.dropWhile isJsWs).reverse⟩

/-!
Rational arithmetic, written through `mkRat` so that it evaluates by
kernel reduction (the `Rat` field operations of the library are
`@[irreducible]`). The bridging lemmas `qadd_eq`, `qsub_eq`, `qmul_eq`
and `qneg_eq` below prove these are the field operations of `ℚ`.
-/

/-- A natural number as a rational. -/
def natToQ (n : Nat) : ℚ := mkRat (Int.ofNat n) 1

/-- Rational negation (equals `-a`, see `qneg_eq`). -/
def qneg (a : ℚ) : ℚ := mkRat (-a.num) a.den

/-- Rational addition (equals `a + b`, see `qadd_eq`). -/
def qadd (a b : ℚ) : ℚ := mkRat (a.num * b.den + b.num * a.den) (a.den * b.den)

/-- Rational subtraction (equals `a - b`, see `qsub_eq`). -/
def qsub (a b : ℚ) : ℚ := mkRat (a.num * b.den - b.num * a.den) (a.den * b.den)

/-- Rational multiplication (equals `a * b`, see `qmul_eq`). -/
def qmul (a b : ℚ) : ℚ := mkRat (a.num * b.num) (a.den * b.den)

/-- Rational division (equals `a / b`, see `qdiv_eq`). -/
def qdiv (a b : ℚ) : ℚ :=
  if 0 ≤ b.num then mkRat (a.num * b.den) (a.den * b.num.natAbs)
  else mkRat (-(a.num * b.den)) (a.den * b.num.natAbs)

/-- `10 ^ n` as a rational. -/
def qpow10 (n : Nat) : ℚ := natToQ (10 ^ n)

/-- `10 ^ e` for an integer exponent, as a rational. -/
def qpow10Z : Int → ℚ
  | .ofNat n => qpow10 n
  | .negSucc n => mkRat 1 (10 ^ (n + 1))

/-- The literal placeholder `{{me}}` substituted into triggers. -/
def mePat : String := "\x7b\x7bme\x7d\x7d"

/-- The literal placeholder `{{sender}}` substituted into responses. -/
def senderPat : String := "\x7b\x7bsender\x7d\x7d"

/-! ## The modelled regular-expression engine -/

/-- The shorthand character classes of the modelled regex subset. -/
inductive ClsKind
  | word
  | digit
  | space
deriving DecidableEq

/-- Single-character regex atoms. -/
inductive RAtom
  | lit (c : Char)
  | dot
  | cls (k : ClsKind) (neg : Bool)
deriving DecidableEq

/-- Regex abstract syntax of the modelled subset. `plus` is parsed as
`seq r (star r)`. -/
inductive Re
  | eps
  | atom (a : RAtom)
  | seq (r1 r2 : Re)
  | star (r : Re)
  | opt (r : Re)
  | group (n : Nat) (r : Re)
  | bol
  | eol
deriving DecidableEq

/-- Does a character belong to a shorthand class (`\w`, `\d`, `\s`)? -/
def clsMatch (k : ClsKind) (c : Char) : Bool :=
  match k with
  | .word => c.isAlphanum || c = '_'
  | .digit => c.isDigit
  | .space => c = ' ' || c = '\t' || c = '\n' || c = '\r' || c = '\x0b' || c = '\x0c'

/-- Does an atom match a character (with the `i` flag when `ic`)? -/
def atomMatch (ic : Bool) (a : RAtom) (c : Char) : Bool :=
  match a with
  | .lit l => if ic then c.toLower = l.toLower else c = l
  | .dot => !(c = '\n' || c = '\r')
  | .cls k neg => if neg then !(clsMatch k c) else clsMatch k c

/-- Capture slots: group `n` is stored at index `n - 1` as its
half-open span of input positions, or `none` if it never participated. -/
abbrev Caps := List (Option (Nat × Nat))

/-- Record the span of capturing group `n`. -/
def setCap (caps : Caps) (n : Nat) (v : Nat × Nat) : Caps :=
  caps.set (n - 1) (some v)

/-- The backtracking matcher, continuation-passing style: match `re` at
position `pos` of `s` and call `k` with the end position and captures.
Structurally fuelled: one unit of fuel is spent per recursion step, and
a `star` iteration must consume input, as in JS, so the fuel used by
`jsMatch` is always sufficient. -/
def reM (s : List Char) (ic : Bool) :
    Nat → Re → Nat → Caps → (Nat → Caps → Option (Nat × Caps)) → Option (Nat × Caps)
  | 0, _, _, _, _ => none
  | fuel + 1, re, pos, caps, k =>
    match re with
    | .eps => k pos caps
    | .atom a =>
      match s[pos]? with
      | some c => if atomMatch ic a c then k (pos + 1) caps else none
      | none => none
    | .seq r1 r2 =>
      reM s ic fuel r1 pos caps (fun p c2 => reM s ic fuel r2 p c2 k)
    | .star r =>
      match reM s ic fuel r pos caps
          (fun p c2 => if p = pos then none else reM s ic fuel (.star r) p c2 k) with
      | some x => some x
      | none => k pos caps
    | .opt r =>
      match reM s ic fuel r pos caps k with
      | some x => some x
      | none => k pos caps
    | .group n r =>
      reM s ic fuel r pos caps (fun p c2 => k p (setCap c2 n (pos, p)))
    | .bol => if pos = 0 then k pos caps else none
    | .eol => if pos = s.length then k pos caps else none

/-- Structural size of a regex, used to pick an ample fuel. -/
def reSize : Re → Nat
  | .eps => 1
  | .atom _ => 1
  | .seq r1 r2 => reSize r1 + reSize r2 + 1
  | .star r => reSize r + 1
  | .opt r => reSize r + 1
  | .group _ r => reSize r + 1
  | .bol => 1
  | .eol => 1

/-- Try a match of `re` at `start`, then at `start + 1`, ...: leftmost
match wins, as in JS `String.prototype.match`. Structurally fuelled;
`jsMatch` passes fuel covering every start position. -/
def matchFrom (s : List Char) (ic : Bool) (nGroups : Nat) (re : Re) :
    Nat → Nat → Option (Nat × Nat × Caps)
  | 0, _ => none
  | fuel + 1, start =>
    match reM s ic ((s.length + 2) * (reSize re + 2)) re start
        (List.replicate nGroups none) (fun p c => some (p, c)) with
    | some (e, caps) => some (start, e, caps)
    | none => if start < s.length then matchFrom s ic nGroups re fuel (start + 1) else none

/-- A compiled regex: syntax, number of capturing groups, `i` flag. -/
structure CompiledRe where
  re : Re
  nGroups : Nat
  ignoreCase : Bool
deriving DecidableEq

/-- The characters of `s` from position `a` (inclusive) to `b`
(exclusive), as a string. -/
def subStr (s : List Char) (a b : Nat) : String :=
  ⟨(s.drop a).take (b - a)⟩

/-- The model of `str.match(regex)` for a non-global regex: `none` when
there is no match, otherwise the JS match array: the full match at
index 0 followed by one entry per capturing group (`none` for a group
that did not participate). -/
def jsMatch (c : CompiledRe) (s : String) : Option (List (Option String)) :=
  match matchFrom s.data c.ignoreCase c.nGroups c.re (s.data.length + 1) 0 with
  | none => none
  | some (st, e, caps) =>
    some (some (subStr s.data st e) :: caps.map (fun o => o.map (fun p => subStr s.data p.1 p.2)))

/-- One escape sequence (`\c`) of the modelled subset. Word-boundary
escapes and back-references are reported as unsupported. -/
def escAtom (c : Char) : Except String RAtom :=
  match c with
  | 'w' => .ok (.cls .word false)
  | 'W' => .ok (.cls .word true)
  | 'd' => .ok (.cls .digit false)
  | 'D' => .ok (.cls .digit true)
  | 's' => .ok (.cls .space false)
  | 'S' => .ok (.cls .space true)
  | 'n' => .ok (.lit '\n')
  | 't' => .ok (.lit '\t')
  | 'r' => .ok (.lit '\r')
  | 'f' => .ok (.lit '\x0c')
  | 'v' => .ok (.lit '\x0b')
  | 'b' => .error "word boundary not in modelled subset"
  | 'B' => .error "word boundary not in modelled subset"
  | c => if c.isDigit then .error "backreference not in modelled subset" else .ok (.lit c)

/-- Apply a postfix quantifier (`* + ?`) to a parsed term, if one
follows. Quantifying an anchor is a syntax error, as in JS. -/
def applyQuant (a : Re) (isAssert : Bool) (cs : List Char) : Except String (Re × List Char) :=
  match cs with
  | [] => .ok (a, [])
  | q :: rest =>
    if q = '*' then (if isAssert then .error "nothing to repeat" else .ok (.star a, rest))
    else if q = '+' then (if isAssert then .error "nothing to repeat" else .ok (.seq a (.star a), rest))
    else if q = '?' then (if isAssert then .error "nothing to repeat" else .ok (.opt a, rest))
    else .ok (a, q :: rest)

/-- Glue a parsed (and quantified) term onto the parse of the rest of
the sequence. -/
def seqJoin (a2 : Re) (res : Except String (Re × List Char × Nat)) :
    Except String (Re × List Char × Nat) :=
  match res with
  | .error e => .error e
  | .ok (re, rem, g3) => .ok (.seq a2 re, rem, g3)

/-- Parse a sequence of terms, stopping at `)` or at the end of the
pattern. `g` counts the capturing groups opened so far, and is threaded
through; the returned regex is the right-nested `seq` of the terms,
each with its optional postfix quantifier applied. Structurally
fuelled; `parseRegex` passes ample fuel. -/
def parseSeq (fuel0 : Nat) (cs0 : List Char) (g0 : Nat) :
    Except String (Re × List Char × Nat) :=
  match fuel0, cs0, g0 with
  | 0, _, _ => .error "parser fuel exhausted"
  | _ + 1, [], g => .ok (.eps, [], g)
  | fuel + 1, c :: rest, g =>
      if c = ')' then .ok (.eps, c :: rest, g)
      else if c = '|' then .error "alternation not in modelled subset"
      else if c = '[' then .error "character class not in modelled subset"
      else if c = '*' ∨ c = '+' ∨ c = '?' then .error "nothing to repeat"
      else if c = '(' then
        match parseSeq fuel rest (g + 1) with
        | .error e => .error e
        | .ok (inner, rem, g2) =>
          match rem with
          | ')' :: rem2 =>
            match applyQuant (.group (g + 1) inner) false rem2 with
            | .error e => .error e
            | .ok (a2, rest2) => seqJoin a2 (parseSeq fuel rest2 g2)
          | _ => .error "unterminated group"
      else if c = '\\' then
        match rest with
        | [] => .error "pattern ends with a backslash"
        | e :: rest2 =>
          match escAtom e with
          | .error er => .error er
          | .ok a =>
            match applyQuant (.atom a) false rest2 with
            | .error er => .error er
            | .ok (a2, rest3) => seqJoin a2 (parseSeq fuel rest3 g)
      else
        let a := if c = '^' then Re.bol
                 else if c = '$' then Re.eol
                 else if c = '.' then Re.atom .dot
                 else Re.atom (.lit c)
        match applyQuant a (c = '^' || c = '$') rest with
        | .error er => .error er
        | .ok (a2, rest2) => seqJoin a2 (parseSeq fuel rest2 g)

/-- Parse a whole pattern: the model of regex compilation. -/
def parseRegex (pat : String) : Except String (Re × Nat) :=
  match parseSeq (2 * pat.data.length + 2) pat.data 0 with
  | .ok (re, [], g) => .ok (re, g)
  | .ok (_, _ :: _, _) => .error "unmatched close paren"
  | .error e => .error e

/-- Is a flag string valid for `new RegExp` (known flags, no repeats)? -/
def validFlags (f : String) : Bool :=
  f.data.all (fun c => c ∈ "dgimsuvy".data) && f.data.Nodup

/-- The model of `new RegExp(pat, flags)`: a compile error is the JS
`SyntaxError` path of the handler. -/
def compileRegex (pat flags : String) : Except String CompiledRe :=
  if validFlags flags then
    match parseRegex pat with
    | .ok (re, g) => .ok ⟨re, g, flags.data.contains 'i'⟩
    | .error e => .error e
  else .error "invalid regular expression flags"

/-! ## The rule data model and the privmsg handler
(`src/message-handler.js`, `createPrivmsgHandler`) -/

/-- A rule as held in memory after a successful load: the required
string fields, and the optional fields the handler reads (`none` models
an absent JS property). Numeric fields are rationals, see the header. -/
structure Rule where
  server : String
  listen_channel : String
  trigger_text : String
  trigger_flags : Option String
  response_text : Option String
  response_channel : Option String
  cooldown_seconds : Option ℚ
  delay_seconds : Option ℚ
deriving DecidableEq

/-- A network channel as the handler uses it: name and id. -/
structure Channel where
  name : String
  id : Nat
deriving DecidableEq

/-- The slice of TheLounge's network object the handler reads. -/
structure Network where
  name : String
  nick : String
  channels : List Channel
deriving DecidableEq

/-- A privmsg event: sender nick, target channel, message text. -/
structure MsgData where
  nick : String
  target : String
  message : String
deriving DecidableEq

/-- Is `m[idx]` truthy in JS? (`undefined` and `""` are falsy.) -/
def truthyOptStr : Option String → Bool
  | some s => s ≠ ""
  | none => false

/-- The model of `responseText.replace(/\$(\d)/g, fn)` in
`sendResponse`: scan left to right; at `$` followed by one digit `d`,
substitute capture group `d` of the match result when `0 < d`,
`d < m.length` and `m[d]` is truthy, else keep the two characters
literally; scanning resumes after the consumed characters. -/
def applyDollarF (m : List (Option String)) : Nat → List Char → List Char
  | _, [] => []
  | 0, l => l
  | _ + 1, [c] => [c]
  | fuel + 1, c :: d :: rest2 =>
    if c = '$' then
      if d.isDigit then
        if 0 < d.toNat - 48 ∧ d.toNat - 48 < m.length ∧ truthyOptStr (m.getD (d.toNat - 48) none) then
          ((m.getD (d.toNat - 48) none).getD "").data ++ applyDollarF m fuel rest2
        else c :: d :: applyDollarF m fuel rest2
      else c :: applyDollarF m fuel (d :: rest2)
    else c :: applyDollarF m fuel (d :: rest2)

/-- `applyDollarF` with enough fuel for its input. -/
def applyDollar (m : List (Option String)) (l : List Char) : List Char :=
  applyDollarF m l.length l

/-- The response text computed by `sendResponse`: `{{sender}}` is
replaced by the sender's nick everywhere, then — only when the match
result has at least one capture group entry — `$N` placeholders are
substituted by `applyDollar`. -/
def buildResponseText (rt : Option String) (senderNick : String) (m : List (Option String)) : String :=
  let t := replaceAllStr senderPat senderNick (jsOrStr rt "")
  if 1 < m.length then ⟨applyDollar m t.data⟩ else t

/-- The trigger compilation the handler performs for a rule: substitute
`{{me}}` by the network's nick, then compile with the rule's flags. -/
def compiledTrigger (r : Rule) (nick : String) : Except String CompiledRe :=
  compileRegex (replaceAllStr mePat nick r.trigger_text) (jsOrStr r.trigger_flags "")

/-- A rule's cooldown interval in seconds: 5 when the field is absent
(`rule.cooldown_seconds === undefined ? 5 : rule.cooldown_seconds`). -/
def cooldownSecondsOf (r : Rule) : ℚ :=
  match r.cooldown_seconds with
  | none => 5
  | some q => q

/-- The handler's cooldown test for the rule at index `i`:
`lastExecuted && (now - lastExecuted < cooldownMs)` (a stored timestamp
of `0` is falsy in JS). -/
def onCooldownB (cd : Nat → Option ℚ) (now : ℚ) (i : Nat) (r : Rule) : Bool :=
  match cd i with
  | some t => (t ≠ 0 : Bool) && decide (qsub now t < qmul (cooldownSecondsOf r) (natToQ 1000))
  | none => false

/-- One queued or immediate response emission. `dueAt` is the time the
send executes: `now` for an immediate send, `now + delay_seconds * 1000`
for a delayed one. -/
structure Send where
  text : String
  chanId : Nat
  delayed : Bool
  dueAt : ℚ
deriving DecidableEq

/-- The error-level log events of the handler (debug logging has no
behavioural effect and is elided). -/
inductive LogEvent
  | invalidRegex (index : Nat) (rule : Rule) (err : String)
  | channelNotFound (target : String)
deriving DecidableEq

/-- The outcome of one privmsg event: the cooldown map after the event
(keyed by rule position, the model of the JS `Map` keyed by the rule
objects of the current rule list), the sends emitted, the error logs,
and the index of the rule that fired, if any. -/
structure HandleResult where
  cooldowns : Nat → Option ℚ
  sends : List Send
  logs : List LogEvent
  fired : Option Nat

/-- The rule loop of `createPrivmsgHandler`, over rules paired with
their positions: context check, trigger compile + test, cooldown gate,
destination lookup, cooldown mark, immediate or delayed send, and stop
at the first rule that fires. -/
def handleLoop (net : Network) (d : MsgData) (now : ℚ) (cd : Nat → Option ℚ) :
    List (Nat × Rule) → HandleResult
  | [] => ⟨cd, [], [], none⟩
  | (i, rule) :: rest =>
    if rule.server ≠ net.name ∨ lowerStr rule.listen_channel ≠ lowerStr d.target then
      handleLoop net d now cd rest
    else if rule.trigger_text = "" then
      handleLoop net d now cd rest
    else
      match compiledTrigger rule net.nick with
      | .error e =>
        let res := handleLoop net d now cd rest
        { res with logs := .invalidRegex i rule e :: res.logs }
      | .ok cre =>
        match jsMatch cre d.message with
        | none => handleLoop net d now cd rest
        | some matchResult =>
          if onCooldownB cd now i rule then
            handleLoop net d now cd rest
          else
            match net.channels.find? (fun c =>
                lowerStr c.name = lowerStr (jsOrStr rule.response_channel d.target)) with
            | none =>
              let res := handleLoop net d now cd rest
              { res with logs := .channelNotFound (jsOrStr rule.response_channel d.target) :: res.logs }
            | some targetChan =>
              let text := buildResponseText rule.response_text d.nick matchResult
              let delaySeconds := jsOrNum rule.delay_seconds 0
              { cooldowns := fun j => if j = i then some now else cd j
                sends := [if delaySeconds > 0 then
                            ⟨text, targetChan.id, true, qadd now (qmul delaySeconds (natToQ 1000))⟩
                          else ⟨text, targetChan.id, false, now⟩]
                logs := []
                fired := some i }

/-- The handler for one privmsg event over the current rule list. -/
def createPrivmsgHandler (net : Network) (d : MsgData) (now : ℚ) (cd : Nat → Option ℚ)
    (rules : List Rule) : HandleResult :=
  handleLoop net d now cd rules.enum

/-- Does a rule structurally match the message: server equal
(case-sensitive), channel equal (case-insensitive), trigger non-empty,
trigger compiles, and the compiled regex matches the text? -/
def structMatchB (net : Network) (d : MsgData) (r : Rule) : Bool :=
  (r.server = net.name : Bool) && (lowerStr r.listen_channel = lowerStr d.target : Bool) &&
    (r.trigger_text ≠ "" : Bool) &&
    (match compiledTrigger r net.nick with
     | .ok cre => (jsMatch cre d.message).isSome
     | .error _ => false)

/-- Is a rule fully eligible to fire: structural match and cooldown
clear? -/
def eligibleB (net : Network) (d : MsgData) (now : ℚ) (cd : Nat → Option ℚ)
    (p : Nat × Rule) : Bool :=
  structMatchB net d p.2 && !onCooldownB cd now p.1 p.2

/-- Does a rule's response destination resolve in the network's channel
directory (case-insensitively)? -/
def resolvesB (net : Network) (d : MsgData) (r : Rule) : Bool :=
  (net.channels.find? (fun c =>
    lowerStr c.name = lowerStr (jsOrStr r.response_channel d.target))).isSome

/-- Does a rule actually fire at its position: fully eligible
(structural match and cooldown clear) and its response destination
resolves? -/
def firesB (net : Network) (d : MsgData) (now : ℚ) (cd : Nat → Option ℚ)
    (p : Nat × Rule) : Bool :=
  eligibleB net d now cd p && resolvesB net d p.2

/-! ## The rule store (`src/rule-manager.js`) -/

/-- The key under which `mergeRules` indexes a rule:
`` `${rule.server}|${rule.listen_channel}|${rule.trigger_text}` ``. -/
def createRuleKey (r : Rule) : String :=
  r.server ++ "|" ++ r.listen_channel ++ "|" ++ r.trigger_text

/-- A rule's identity as the specification defines it: the ordered
triple (`server`, `listen_channel`, `trigger_text`). -/
def ruleId (r : Rule) : String × String × String :=
  (r.server, r.listen_channel, r.trigger_text)

/-- The model of `Map.prototype.set` on an insertion-ordered
association list: update in place when the key exists (keeping its
position), append otherwise. -/
def mapSet (m : List (String × Rule)) (k : String) (v : Rule) : List (String × Rule) :=
  if m.any (fun p => p.1 = k) then m.map (fun p => if p.1 = k then (k, v) else p)
  else m ++ [(k, v)]

/-- `mergeRules`'s first loop: index the existing rules by key. -/
def insertAll (m : List (String × Rule)) : List Rule → List (String × Rule)
  | [] => m
  | r :: rest => insertAll (mapSet m (createRuleKey r) r) rest

/-- `mergeRules`'s second loop: fold the incoming rules into the map,
counting overwrites (key already present) and additions (key new). -/
def mergeCount (m : List (String × Rule)) : List Rule → List (String × Rule) × Nat × Nat
  | [] => (m, 0, 0)
  | r :: rest =>
    let k := createRuleKey r
    let hit := m.any (fun p => p.1 = k)
    let res := mergeCount (mapSet m k r) rest
    (res.1, (if hit then 0 else 1) + res.2.1, (if hit then 1 else 0) + res.2.2)

/-- The result of `mergeRules`. -/
structure MergeResult where
  mergedRules : List Rule
  added : Nat
  overwritten : Nat
deriving DecidableEq

/-- The model of `mergeRules(existingRules, newRules)`: build the key
index over the existing rules, fold in the incoming rules, and return
the map's values in insertion order together with both counters. A pure
function of its arguments, as in the source (it touches neither the
live rule store nor the rules file). -/
def mergeRules (existingRules newRules : List Rule) : MergeResult :=
  let m0 := insertAll [] existingRules
  let res := mergeCount m0 newRules
  ⟨res.1.map (fun p => p.2), res.2.1, res.2.2⟩

/-- The in-memory state `loadRules` touches: the rule list and the
cooldown map (keyed by rule position, see `HandleResult`). -/
structure AMState where
  rules : List Rule
  ruleCooldowns : Nat → Option ℚ

/-- The outcome of the `readFileSync` + `JSON.parse` step of
`loadRules`: a successful read whose contents parse or fail to parse,
a file-not-found error (`ENOENT`), or any other read error. -/
inductive RulesFileRead
  | ok (parsed : Except Unit (List Rule))
  | enoent
  | otherError

/-- What one `loadRules` call produced: the state after the call, the
message logged, and what the optional `tellUser` callback was told. -/
structure LoadOutcome where
  state : AMState
  message : String
  told : Option String

/-- The model of `loadRules(tellUser)`: on success the parsed contents
replace the rule list and every cooldown is cleared; on `ENOENT`, on a
`SyntaxError` from `JSON.parse`, and on any other read error the state
is untouched and a distinct message is produced; the message always
goes to the logger and, when present, to the `tellUser` callback. -/
def loadRules (path : String) (st : AMState) (read : RulesFileRead) (hasCallback : Bool) :
    LoadOutcome :=
  match read with
  | .ok (.ok newRules) =>
    let msg := "Rules successfully reloaded. Found " ++ toString newRules.length ++ " rules."
    ⟨⟨newRules, fun _ => none⟩, msg, if hasCallback then some msg else none⟩
  | .ok (.error _) =>
    let msg := "ERROR: Failed to parse " ++ path ++ ". Please check for JSON syntax errors."
    ⟨st, msg, if hasCallback then some msg else none⟩
  | .enoent =>
    let msg := "ERROR: Configuration file not found at " ++ path ++ "."
    ⟨st, msg, if hasCallback then some msg else none⟩
  | .otherError =>
    let msg := "ERROR: Could not read rules from " ++ path ++ "."
    ⟨st, msg, if hasCallback then some msg else none⟩

/-! ## The rule validator (`src/rule-validator.js`) -/

/-- Deserialized JSON, the input type of `validateRules`. Objects are
insertion-ordered field lists (JSON.parse output has unique keys). -/
inductive JsonValue
  | null
  | bool (b : Bool)
  | num (q : ℚ)
  | str (s : String)
  | arr (items : List JsonValue)
  | obj (fields : List (String × JsonValue))

/-- Field read on a JSON value: `undefined` (`none`) off objects. -/
def getField (v : JsonValue) (k : String) : Option JsonValue :=
  match v with
  | .obj fields => (fields.find? (fun p => p.1 = k)).map (fun p => p.2)
  | _ => none

/-- In-place field update on an object's field list. -/
def setField (fields : List (String × JsonValue)) (k : String) (v : JsonValue) :
    List (String × JsonValue) :=
  fields.map (fun p => if p.1 = k then (k, v) else p)

/-- Digit characters to a natural number, most significant first. -/
def digitsToNat : List Char → Nat → Nat
  | [], acc => acc
  | c :: rest, acc => digitsToNat rest (acc * 10 + (c.toNat - 48))

/-- Parse an unsigned decimal mantissa (`123`, `123.45`, `123.`,
`.5`), returning its value and the unconsumed characters. -/
def parseMantissa (cs : List Char) : Option (ℚ × List Char) :=
  let ip := cs.takeWhile Char.isDigit
  let r1 := cs.dropWhile Char.isDigit
  match r1 with
  | '.' :: r2 =>
    let fp := r2.takeWhile Char.isDigit
    let r3 := r2.dropWhile Char.isDigit
    if ip = [] ∧ fp = [] then none
    else some (qadd (natToQ (digitsToNat ip 0)) (qdiv (natToQ (digitsToNat fp 0)) (qpow10 fp.length)), r3)
  | _ => if ip = [] then none else some (natToQ (digitsToNat ip 0), r1)

/-- Parse an optional exponent part (`e5`, `E-3`). -/
def parseExponent (cs : List Char) : Option (Int × List Char) :=
  match cs with
  | 'e' :: r | 'E' :: r =>
    let res :=
      match r with
      | '-' :: r2 => ((-1 : Int), r2)
      | '+' :: r2 => ((1 : Int), r2)
      | r2 => ((1 : Int), r2)
    let ds := res.2.takeWhile Char.isDigit
    let rem := res.2.dropWhile Char.isDigit
    if ds = [] then none else some (res.1 * (digitsToNat ds 0 : Int), rem)
  | _ => some (0, cs)

/-- The model of JS `Number(string)` on the decimal grammar: trim, an
optional sign, a decimal mantissa, an optional exponent; `none` is
`NaN`. Hexadecimal/octal/binary literals and `Infinity` are outside the
modelled subset. -/
def jsNumberOfString (s : String) : Option ℚ :=
  let t := jsTrim s
  if t = "" then some 0
  else
    let sgncs : Bool × List Char :=
      match t.data with
      | '-' :: r => (true, r)
      | '+' :: r => (false, r)
      | r => (false, r)
    match parseMantissa sgncs.2 with
    | none => none
    | some (mant, r1) =>
      match parseExponent r1 with
      | none => none
      | some (e, r2) =>
        if r2 = [] then
          some (if sgncs.1 then qneg (qmul mant (qpow10Z e)) else qmul mant (qpow10Z e))
        else none

/-- The failure message for a required string property. -/
def missingMsg (idx : Nat) (prop : String) : String :=
  "Rule #" ++ toString (idx + 1) ++ " is missing or has an empty required string property: '"
    ++ prop ++ "'."

/-- The failure message for a numeric field of invalid type. -/
def invalidTypeMsg (idx : Nat) (field : String) : String :=
  "Rule #" ++ toString (idx + 1) ++ " has an invalid type for '" ++ field
    ++ "'. Expected a number or a numeric string."

/-- The failure message for a non-numeric string in a numeric field. -/
def nonNumericMsg (idx : Nat) (field : String) (s : String) : String :=
  "Rule #" ++ toString (idx + 1) ++ " has a non-numeric string for '" ++ field ++ "': '"
    ++ s ++ "'."

/-- The required string properties, in the order the validator checks
them. -/
def requiredStrings : List String := ["server", "listen_channel", "trigger_text", "response_text"]

/-- Check the required string properties of rule `idx`: each must be a
string that is non-empty after trimming; the first failure is
reported. -/
def checkRequiredProps (idx : Nat) (fields : List (String × JsonValue)) :
    List String → Option String
  | [] => none
  | p :: ps =>
    match (fields.find? (fun q => q.1 = p)).map (fun q => q.2) with
    | some (JsonValue.str s) =>
      if jsTrim s = "" then some (missingMsg idx p) else checkRequiredProps idx fields ps
    | _ => some (missingMsg idx p)

/-- Validate (and coerce) one optional numeric field of rule `idx`,
returning the possibly-updated field list or the error: a non-empty
string that parses gets coerced in place, a non-empty string that does
not parse is an error naming the field and the value, any other
non-number value (including a whitespace-only string) is an invalid
type error, a number is left as is, an absent field is skipped. -/
def validateNumField (idx : Nat) (field : String) (fields : List (String × JsonValue)) :
    List (String × JsonValue) × Option String :=
  match (fields.find? (fun q => q.1 = field)).map (fun q => q.2) with
  | none => (fields, none)
  | some v =>
    match v with
    | .str s =>
      if jsTrim s ≠ "" then
        match jsNumberOfString s with
        | some q => (setField fields field (.num q), none)
        | none => (fields, some (nonNumericMsg idx field s))
      else (fields, some (invalidTypeMsg idx field))
    | .num _ => (fields, none)
    | _ => (fields, some (invalidTypeMsg idx field))

/-- Validate one rule of the array: it must be a non-null object (a JS
array is `typeof 'object'` and fails on its missing `server` field),
have the required strings, and have well-typed numeric fields, which
are coerced in place. Returns the possibly-updated rule and the first
error. -/
def validateRule (idx : Nat) (v : JsonValue) : JsonValue × Option String :=
  match v with
  | .obj fields =>
    match checkRequiredProps idx fields requiredStrings with
    | some e => (.obj fields, some e)
    | none =>
      let r1 := validateNumField idx "cooldown_seconds" fields
      match r1.2 with
      | some e => (.obj r1.1, some e)
      | none =>
        let r2 := validateNumField idx "delay_seconds" r1.1
        (.obj r2.1, r2.2)
  | .arr items => (.arr items, some (missingMsg idx "server"))
  | v => (v, some ("Rule #" ++ toString (idx + 1) ++ " is not a valid object."))

/-- Validate the elements of the rules array in order, stopping at the
first failure; coercions made before the failure persist (the source
mutates the array in place). -/
def validateLoop (idx : Nat) : List JsonValue → List JsonValue × Option String
  | [] => ([], none)
  | v :: rest =>
    let r := validateRule idx v
    match r.2 with
    | some e => (r.1 :: rest, some e)
    | none =>
      let res := validateLoop (idx + 1) rest
      (r.1 :: res.1, res.2)

/-- The model of `validateRules(rules)`: a non-array input is rejected
whole; otherwise each element is validated in order. Returns the
(possibly coerced) value and the error (`none` means `isValid: true`). -/
def validateRules (v : JsonValue) : JsonValue × Option String :=
  match v with
  | .arr items =>
    let res := validateLoop 0 items
    (.arr res.1, res.2)
  | v => (v, some "The provided rules data is not an array.")

/-! ## Specification-side definitions (used to state the claims) -/

/-- The JS regex metacharacters, as the specification's notion of a
"trigger with no special characters". -/
def jsRegexMetachars : List Char :=
  ['^', '$', '\\', '.', '*', '+', '?', '(', ')', '[', ']', '\x7b', '\x7d', '|']

/-- Modelled from the spec: literal-substring matching — the message
text contains the trigger text as a contiguous substring. -/
def literalSubstringMatch (trig msg : String) : Prop :=
  trig.data <:+: msg.data

/-- The regex that is the right-nested sequence of the literal
characters `cs`. -/
def mkLits (cs : List Char) : Re :=
  cs.foldr (fun c acc => Re.seq (Re.atom (RAtom.lit c)) acc) Re.eps

/-- Do the literal characters `cs` occur at position `pos` of `s`
(matched character by character, honouring the `i` flag)? -/
def litsMatchAt (s : List Char) (ic : Bool) (cs : List Char) (pos : Nat) : Bool :=
  match cs with
  | [] => true
  | c :: rest =>
    match s[pos]? with
    | some x => atomMatch ic (.lit c) x && litsMatchAt s ic rest (pos + 1)
    | none => false

/-- Tokens of a response template, as the amended claim C2 reads it: a
literal character, or `$` followed by one digit character. -/
inductive DTok
  | lit (c : Char)
  | ph (d : Char)
deriving DecidableEq

/-- Modelled from the spec (amended claim C2): cut a template into
literal characters and single-digit `$N` placeholders, left to right
(fuelled like `applyDollarF`). -/
def dollarTokensF : Nat → List Char → List DTok
  | _, [] => []
  | 0, l => l.map .lit
  | _ + 1, [c] => [.lit c]
  | fuel + 1, c :: d :: rest2 =>
    if c = '$' then
      if d.isDigit then .ph d :: dollarTokensF fuel rest2
      else .lit c :: dollarTokensF fuel (d :: rest2)
    else .lit c :: dollarTokensF fuel (d :: rest2)

/-- `dollarTokensF` with enough fuel for its input. -/
def dollarTokens (l : List Char) : List DTok :=
  dollarTokensF l.length l

/-- Modelled from the spec (amended claim C2): render one token against
a match result — substitute a placeholder `$d` exactly when group `d`
exists in the match result (`0 < d < m.length`), participated, and is
non-empty; otherwise keep the placeholder text. -/
def renderDTok (m : List (Option String)) : DTok → List Char
  | .lit c => [c]
  | .ph d =>
    if 0 < d.toNat - 48 ∧ d.toNat - 48 < m.length ∧ truthyOptStr (m.getD (d.toNat - 48) none) then
      ((m.getD (d.toNat - 48) none).getD "").data
    else ['$', d]

/-- Modelled from the spec (amended claim C2): the declarative response
text — replace `{{sender}}`, then render every token of the result. -/
def claimResponseText (rt : Option String) (senderNick : String)
    (m : List (Option String)) : String :=
  ⟨((dollarTokens (replaceAllStr senderPat senderNick (jsOrStr rt "")).data).map
      (renderDTok m)).flatten⟩

/-! ## Concrete instances used by the witnesses and counterexamples -/

/-- An empty cooldown map. -/
def emptyCooldowns : Nat → Option ℚ := fun _ => none

/-- A network with nick `Bot` and one known channel. -/
def netBot : Network := ⟨"N", "Bot", [⟨"#c", 7⟩]⟩

/-- The same network after a nick change to `Other`. -/
def netOther : Network := ⟨"N", "Other", [⟨"#c", 7⟩]⟩

/-- A rule answering when directly addressed, via `{{me}}`. -/
def ruleStatus : Rule := ⟨"N", "#c", "^\x7b\x7bme\x7d\x7d: status$", none, some "ok", none, none, none⟩

/-- A plain `ping` rule with default cooldown and no delay. -/
def rulePing : Rule := ⟨"N", "#c", "ping", none, some "pong", none, none, none⟩

/-- A second `ping` rule with a distinct response. -/
def rulePing2 : Rule := ⟨"N", "#c", "ping", none, some "pong2", none, none, none⟩

/-- A rule that structurally matches `msgPing` but whose
`response_channel` names a channel the network does not have. -/
def ruleBadChan : Rule := ⟨"N", "#c", "ping", none, some "pong", some "#nowhere", none, none⟩

/-- A rule with a malformed trigger (unterminated group). -/
def ruleBad : Rule := ⟨"N", "#c", "(", none, some "never", none, none, none⟩

/-- A `ping` rule with a 5 s cooldown and a 2 s delay. -/
def ruleDelay : Rule := ⟨"N", "#c", "ping", none, some "pong", none, some 5, some 2⟩

/-- The message `ping!` in `#c` from `u`. -/
def msgPing : MsgData := ⟨"u", "#c", "ping!"⟩

/-- A rule whose group can capture the empty string, echoing `$1`. -/
def ruleEmptyCap : Rule := ⟨"N", "#c", "a(b*)c", none, some "$1", none, none, none⟩

/-- The message `ac` in `#c`. -/
def msgAc : MsgData := ⟨"u", "#c", "ac"⟩

/-- `Bot: status` in `#c`. -/
def msgBotStatus : MsgData := ⟨"u", "#c", "Bot: status"⟩

/-- `Other: status` in `#c`. -/
def msgOtherStatus : MsgData := ⟨"u", "#c", "Other: status"⟩

/-- Existing-side rule of the merge key collision: its fields joined
with `|` read `a|b|c|t`. -/
def ruleKeyA : Rule := ⟨"a|b", "c", "t", none, some "pong1", none, none, none⟩

/-- Incoming-side rule of the merge key collision: a different identity
triple whose joined key also reads `a|b|c|t`. -/
def ruleKeyB : Rule := ⟨"a", "b|c", "t", none, some "pong2", none, none, none⟩

/-- Existing-side rule of the C10 collision (distinct from C5's). -/
def ruleKeyC : Rule := ⟨"x|y", "z", "u", none, some "r1", none, none, none⟩

/-- Incoming-side rule of the C10 collision. -/
def ruleKeyD : Rule := ⟨"x", "y|z", "u", none, some "r2", none, none, none⟩

/-- A valid rule object with numeric-string optional fields. -/
def goodRuleJson : JsonValue :=
  .obj [("server", .str "TestNet"), ("listen_channel", .str "#test"),
        ("trigger_text", .str "ping"), ("response_text", .str "pong"),
        ("cooldown_seconds", .str "10"), ("delay_seconds", .str "5.5")]

/-- `goodRuleJson` after validation: both strings coerced to numbers. -/
def coercedRuleJson : JsonValue :=
  .obj [("server", .str "TestNet"), ("listen_channel", .str "#test"),
        ("trigger_text", .str "ping"), ("response_text", .str "pong"),
        ("cooldown_seconds", .num (mkRat 10 1)), ("delay_seconds", .num (mkRat 11 2))]

/-- A rule object with a non-numeric string in `cooldown_seconds`. -/
def abcRuleJson : JsonValue :=
  .obj [("server", .str "TestNet"), ("listen_channel", .str "#test"),
        ("trigger_text", .str "ping"), ("response_text", .str "pong"),
        ("cooldown_seconds", .str "abc")]

/-- A rule object with a boolean in `delay_seconds`. -/
def boolRuleJson : JsonValue :=
  .obj [("server", .str "TestNet"), ("listen_channel", .str "#test"),
        ("trigger_text", .str "ping"), ("response_text", .str "pong"),
        ("delay_seconds", .bool true)]

/-- A rule object with a negative `cooldown_seconds`. -/
def negRuleJson : JsonValue :=
  .obj [("server", .str "TestNet"), ("listen_channel", .str "#test"),
        ("trigger_text", .str "ping"), ("response_text", .str "pong"),
        ("cooldown_seconds", .num (mkRat (-5) 1))]

/-- The `cooldown_seconds` entry of rule `i` of a validated array, for
stating what validation produced. -/
def numFieldAt (v : JsonValue) (i : Nat) (field : String) : Option ℚ :=
  match v with
  | .arr items =>
    match items.getD i .null with
    | .obj fields =>
      match (fields.find? (fun q => q.1 = field)).map (fun q => q.2) with
      | some (JsonValue.num q) => some q
      | _ => none
    | _ => none
  | _ => none

/-- Is the field absent or a number on a JSON value? -/
def fieldOkB (v : JsonValue) (f : String) : Bool :=
  match getField v f with
  | none => true
  | some (JsonValue.num _) => true
  | some _ => false

/-- Does every present numeric field of every rule of a validated
array hold a number? -/
def numericFieldsOk (v : JsonValue) : Bool :=
  match v with
  | .arr items =>
    items.all (fun r => fieldOkB r "cooldown_seconds" && fieldOkB r "delay_seconds")
  | _ => false

/-- A concrete in-memory state for the load-rules scenarios: one rule,
one live cooldown entry. -/
def loadedState : AMState := ⟨[rulePing], fun j => if j = 0 then some 42 else none⟩

/-- The success outcome shape claim C4 describes: every cooldown
cleared, and a human-readable count message that also reaches the
callback. -/
def loadSuccessShape (out : LoadOutcome) : Prop :=
  (∀ j, out.state.ruleCooldowns j = none) ∧
  out.message = "Rules successfully reloaded. Found " ++ toString out.state.rules.length ++ " rules." ∧
  out.told = some out.message

/-- The file-not-found outcome shape claim C4 describes: rules left
unchanged, with the distinct named message. -/
def loadNotFoundShape (path : String) (st : AMState) (out : LoadOutcome) : Prop :=
  out.state.rules = st.rules ∧
  out.message = "ERROR: Configuration file not found at " ++ path ++ "."

/-- The parse-failure outcome shape claim C4 describes: rules left
unchanged, with a message distinct from the not-found one. -/
def loadParseFailShape (path : String) (st : AMState) (out : LoadOutcome) : Prop :=
  out.state.rules = st.rules ∧
  out.message = "ERROR: Failed to parse " ++ path ++ ". Please check for JSON syntax errors."

/-! ## Bridging lemmas: the reducible rational operations are the
field operations of `ℚ` -/

theorem qmul_eq (a b : ℚ) : qmul a b = a * b := by
  unfold qmul
  rw [Rat.mkRat_eq_div]
  push_cast
  conv_rhs => rw [← Rat.num_div_den a, ← Rat.num_div_den b]
  rw [div_mul_div_comm]

theorem qadd_eq (a b : ℚ) : qadd a b = a + b := by
  unfold qadd
  rw [Rat.mkRat_eq_div]
  push_cast
  conv_rhs => rw [← Rat.num_div_den a, ← Rat.num_div_den b]
  rw [div_add_div _ _ (by positivity) (by positivity)]
  ring_nf

theorem qsub_eq (a b : ℚ) : qsub a b = a - b := by
  unfold qsub
  rw [Rat.mkRat_eq_div]
  push_cast
  conv_rhs => rw [← Rat.num_div_den a, ← Rat.num_div_den b]
  rw [div_sub_div _ _ (by positivity) (by positivity)]
  ring_nf

theorem qneg_eq (a : ℚ) : qneg a = -a := by
  unfold qneg
  rw [Rat.mkRat_eq_div]
  push_cast
  rw [neg_div, Rat.num_div_den]

theorem natToQ_eq (n : Nat) : natToQ n = (n : ℚ) := by
  unfold natToQ
  rw [Rat.mkRat_eq_div]
  push_cast
  simp

/-! ## The privmsg loop: structural lemmas -/

theorem handleLoop_sends_le_one (net : Network) (d : MsgData) (now : ℚ)
    (cd : Nat → Option ℚ) (l : List (Nat × Rule)) :
    (handleLoop net d now cd l).sends.length ≤ 1 := by
  induction l with
  | nil => simp [handleLoop]
  | cons p rest ih =>
    obtain ⟨i, r⟩ := p
    rw [handleLoop]
    repeat' split
    all_goals simp_all

theorem handleLoop_fired_eq_find (net : Network) (d : MsgData) (now : ℚ)
    (cd : Nat → Option ℚ) (l : List (Nat × Rule)) :
    (handleLoop net d now cd l).fired = (l.find? (firesB net d now cd)).map Prod.fst := by
  induction l with
  | nil => simp [handleLoop]
  | cons p rest ih =>
    obtain ⟨i, r⟩ := p
    rw [handleLoop]
    split
    · rename_i hctx
      have hsm : structMatchB net d r = false := by
        rcases hctx with h | h <;> simp [structMatchB, h]
      rw [List.find?_cons_of_neg _ (by simp [firesB, eligibleB, hsm]), ih]
    · rename_i hctx
      push_neg at hctx
      split
      · rename_i htrig
        have hsm : structMatchB net d r = false := by
          simp [structMatchB, htrig]
        rw [List.find?_cons_of_neg _ (by simp [firesB, eligibleB, hsm]), ih]
      · rename_i htrig
        split
        · rename_i e hc
          have hsm : structMatchB net d r = false := by
            simp [structMatchB, hc]
          rw [List.find?_cons_of_neg _ (by simp [firesB, eligibleB, hsm])]
          simpa using ih
        · rename_i cre hc
          split
          · rename_i hm
            have hsm : structMatchB net d r = false := by
              simp [structMatchB, hctx.1, hctx.2, hc, hm]
            rw [List.find?_cons_of_neg _ (by simp [firesB, eligibleB, hsm]), ih]
          · rename_i mr hm
            have hsm : structMatchB net d r = true := by
              simp [structMatchB, hctx.1, hctx.2, htrig, hc, hm]
            split
            · rename_i hcool
              rw [List.find?_cons_of_neg _ (by simp [firesB, eligibleB, hcool]), ih]
            · rename_i hcool
              have helig : eligibleB net d now cd (i, r) = true := by
                simp [eligibleB, hsm]
                simpa using hcool
              split
              · rename_i hfind
                have hresf : resolvesB net d r = false := by
                  simp [resolvesB, hfind]
                rw [List.find?_cons_of_neg _ (by simp [firesB, hresf])]
                simpa using ih
              · rename_i chan hfind
                have hresr : resolvesB net d r = true := by
                  simp [resolvesB, hfind]
                rw [List.find?_cons_of_pos _ (by simp [firesB, helig, hresr])]
                rfl

theorem handleLoop_sends_nil_iff (net : Network) (d : MsgData) (now : ℚ)
    (cd : Nat → Option ℚ) (l : List (Nat × Rule)) :
    (handleLoop net d now cd l).sends = [] ↔ (handleLoop net d now cd l).fired = none := by
  induction l with
  | nil => simp [handleLoop]
  | cons p rest ih =>
    obtain ⟨i, r⟩ := p
    rw [handleLoop]
    repeat' split
    all_goals simp_all

/-! ## The claims -/

/-- Counterexample to C1 as stated: a rule that structurally matches
and clears its cooldown check does not necessarily fire — when its
`response_channel` does not resolve in the network's channel
directory the rule is skipped with a channel-not-found log and later
rules are still evaluated, so the first rule clearing its cooldown
check is passed over and the second rule fires. -/
theorem C1_counterexample_unresolved_destination :
    eligibleB netBot msgPing 1000 emptyCooldowns (0, ruleBadChan) = true ∧
    (createPrivmsgHandler netBot msgPing 1000 emptyCooldowns [ruleBadChan, rulePing]).fired
      = some 1 ∧
    (createPrivmsgHandler netBot msgPing 1000 emptyCooldowns [ruleBadChan, rulePing]).logs
      = [.channelNotFound "#nowhere"] := by
  exact ⟨by decide, by decide, by decide⟩

/-- C1 (amended): for every incoming message the handler emits at
most one response; it emits one exactly when some rule fires; and the
rule that fires is precisely the first rule, in rule-set order, that
structurally matches (server exact and case-sensitive, channel
case-insensitive, non-empty trigger that compiles and matches the
text), clears its cooldown check, and whose response destination
resolves in the network's channel directory — a structurally matching
rule that is on cooldown, or whose destination does not resolve, is
passed over without suppressing the evaluation of later rules. -/
theorem C1_amended_first_eligible_rule_fires (net : Network) (d : MsgData) (now : ℚ)
    (cd : Nat → Option ℚ) (rules : List Rule) :
    (createPrivmsgHandler net d now cd rules).sends.length ≤ 1 ∧
    ((createPrivmsgHandler net d now cd rules).sends = []
      ↔ (createPrivmsgHandler net d now cd rules).fired = none) ∧
    (createPrivmsgHandler net d now cd rules).fired
      = (rules.enum.find? (firesB net d now cd)).map Prod.fst :=
  ⟨handleLoop_sends_le_one net d now cd rules.enum,
    handleLoop_sends_nil_iff net d now cd rules.enum,
    handleLoop_fired_eq_find net d now cd rules.enum⟩

/-- C7: a rule whose trigger (after `{{me}}` substitution) fails to
compile is skipped and logged together with the rule's content and the
error, and the handler's result is otherwise exactly the result of
evaluating the remaining rules: later rules still match and fire, and
the failure never escapes message processing. -/
theorem C7_invalid_regex_skips_only_that_rule (net : Network) (d : MsgData) (now : ℚ)
    (cd : Nat → Option ℚ) (i : Nat) (r : Rule) (rest : List (Nat × Rule)) (e : String)
    (hserver : r.server = net.name)
    (hchan : lowerStr r.listen_channel = lowerStr d.target)
    (htrig : r.trigger_text ≠ "")
    (hbad : compiledTrigger r net.nick = .error e) :
    handleLoop net d now cd ((i, r) :: rest)
      = { handleLoop net d now cd rest with
          logs := .invalidRegex i r e :: (handleLoop net d now cd rest).logs } := by
  rw [handleLoop]
  rw [if_neg (by simp [hserver, hchan]), if_neg (by simpa using htrig)]
  rw [hbad]

/-- Witness for C7: the malformed trigger `(` is logged and skipped,
and the later valid `ping` rule still fires on the same message. -/
theorem C7_invalid_regex_skips_only_that_rule_witness :
    ruleBad.server = netBot.name ∧
    lowerStr ruleBad.listen_channel = lowerStr msgPing.target ∧
    ruleBad.trigger_text ≠ "" ∧
    compiledTrigger ruleBad netBot.nick = .error "unterminated group" ∧
    (handleLoop netBot msgPing 1000 emptyCooldowns [(0, ruleBad), (1, rulePing)]).fired = some 1 ∧
    (handleLoop netBot msgPing 1000 emptyCooldowns [(0, ruleBad), (1, rulePing)]).logs
      = [.invalidRegex 0 ruleBad "unterminated group"] := by
  have h := C7_invalid_regex_skips_only_that_rule netBot msgPing 1000 emptyCooldowns 0 ruleBad
    [(1, rulePing)] "unterminated group" (by decide) (by decide) (by decide) rfl
  refine ⟨by decide, by decide, by decide, rfl, ?_, ?_⟩
  · rw [h]; decide
  · rw [h]; decide

/-- C8: every literal `{{me}}` in a trigger is replaced by the
network's current nick before compilation: the trigger
`^{{me}}: status$` becomes `^Bot: status$` under nick `Bot`; with that
nick the rule fires on `Bot: status`, does not fire on
`Other: status`, and after a nick change to `Other` it fires on
`Other: status`. -/
theorem C8_me_substituted_before_compile :
    replaceAllStr mePat "Bot" "^\x7b\x7bme\x7d\x7d: status$" = "^Bot: status$" ∧
    (createPrivmsgHandler netBot msgBotStatus 100 emptyCooldowns [ruleStatus]).fired = some 0 ∧
    (createPrivmsgHandler netBot msgOtherStatus 100 emptyCooldowns [ruleStatus]).fired = none ∧
    (createPrivmsgHandler netOther msgOtherStatus 100 emptyCooldowns [ruleStatus]).fired = some 0 := by
  exact ⟨by decide, by decide, by decide, by decide⟩

/-- C3: when a rule with a positive delay fires at `now1`, its cooldown
timestamp is recorded as `now1` — the moment the rule is determined to
fire — while the send is only due at `now1 + delay·1000`; an identical
message at `now2`, within the cooldown window, produces no send at all
(in particular none for this rule), and an identical message at `now3`,
with the cooldown elapsed, fires the rule again. -/
theorem C3_cooldown_marked_before_delay (net : Network) (d : MsgData) (r : Rule)
    (ch : Channel) (dl : ℚ) (now1 now2 now3 : ℚ)
    (hs : structMatchB net d r = true)
    (hfind : net.channels.find? (fun c =>
      lowerStr c.name = lowerStr (jsOrStr r.response_channel d.target)) = some ch)
    (hdl : jsOrNum r.delay_seconds 0 = dl) (hdlpos : 0 < dl) (hnow : now1 ≠ 0)
    (h2 : qsub now2 now1 < qmul (cooldownSecondsOf r) (natToQ 1000))
    (h3 : ¬ qsub now3 now1 < qmul (cooldownSecondsOf r) (natToQ 1000)) :
    (createPrivmsgHandler net d now1 emptyCooldowns [r]).cooldowns 0 = some now1 ∧
    (∀ snd ∈ (createPrivmsgHandler net d now1 emptyCooldowns [r]).sends,
      snd.delayed = true ∧ snd.dueAt = qadd now1 (qmul dl (natToQ 1000))) ∧
    (createPrivmsgHandler net d now1 emptyCooldowns [r]).fired = some 0 ∧
    (createPrivmsgHandler net d now2
      (createPrivmsgHandler net d now1 emptyCooldowns [r]).cooldowns [r]).sends = [] ∧
    (createPrivmsgHandler net d now3
      (createPrivmsgHandler net d now1 emptyCooldowns [r]).cooldowns [r]).fired = some 0 := by
  have hs' := hs
  simp only [structMatchB, Bool.and_eq_true, decide_eq_true_eq] at hs'
  obtain ⟨⟨⟨hserver, hchan⟩, htrig⟩, hmatch⟩ := hs'
  rcases hc : compiledTrigger r net.nick with e | cre
  · rw [hc] at hmatch; simp at hmatch
  have hmatch2 : (jsMatch cre d.message).isSome = true := by
    rw [hc] at hmatch; simpa using hmatch
  rcases hm : jsMatch cre d.message with _ | mr
  · rw [hm] at hmatch2; simp at hmatch2
  have h1 : createPrivmsgHandler net d now1 emptyCooldowns [r]
      = { cooldowns := fun j => if j = 0 then some now1 else emptyCooldowns j
          sends := [⟨buildResponseText r.response_text d.nick mr, ch.id, true,
                     qadd now1 (qmul dl (natToQ 1000))⟩]
          logs := []
          fired := some 0 } := by
    show handleLoop net d now1 emptyCooldowns [(0, r)] = _
    rw [handleLoop]
    rw [if_neg (by simp [hserver, hchan]), if_neg (by simpa using htrig)]
    simp only [hc, hm, hfind, hdl]
    rw [if_neg (by simp [onCooldownB, emptyCooldowns])]
    rw [if_pos hdlpos]
  have hcd : (createPrivmsgHandler net d now1 emptyCooldowns [r]).cooldowns 0 = some now1 := by
    rw [h1]
    rfl
  have hcool2 : onCooldownB (createPrivmsgHandler net d now1 emptyCooldowns [r]).cooldowns
      now2 0 r = true := by
    rw [h1]
    simp only [onCooldownB, if_pos rfl]
    simp [hnow, h2]
  have hcool3 : onCooldownB (createPrivmsgHandler net d now1 emptyCooldowns [r]).cooldowns
      now3 0 r = false := by
    rw [h1]
    simp only [onCooldownB, if_pos rfl]
    simp [h3]
  refine ⟨hcd, ?_, by rw [h1], ?_, ?_⟩
  · rw [h1]
    intro snd hsnd
    simp only [List.mem_singleton] at hsnd
    subst hsnd
    exact ⟨rfl, rfl⟩
  · show (handleLoop net d now2 _ [(0, r)]).sends = []
    rw [handleLoop]
    rw [if_neg (by simp [hserver, hchan]), if_neg (by simpa using htrig)]
    simp only [hc, hm]
    rw [if_pos hcool2]
    rfl
  · show (handleLoop net d now3 _ [(0, r)]).fired = some 0
    rw [handleLoop]
    rw [if_neg (by simp [hserver, hchan]), if_neg (by simpa using htrig)]
    simp only [hc, hm, hfind, hdl]
    rw [if_neg (by simp [hcool3])]

/-- Witness for C3: the delayed `ping` rule (5 s cooldown, 2 s delay)
fires at t = 10000 ms with its send due at 12000 ms and its cooldown
stamped 10000; the same message at 12000 ms (2 s later) is suppressed,
and at 16000 ms (6 s later) it fires again. -/
theorem C3_cooldown_marked_before_delay_witness :
    (createPrivmsgHandler netBot msgPing 10000 emptyCooldowns [ruleDelay]).cooldowns 0
      = some 10000 ∧
    (createPrivmsgHandler netBot msgPing 12000
      (createPrivmsgHandler netBot msgPing 10000 emptyCooldowns [ruleDelay]).cooldowns
      [ruleDelay]).sends = [] ∧
    (createPrivmsgHandler netBot msgPing 16000
      (createPrivmsgHandler netBot msgPing 10000 emptyCooldowns [ruleDelay]).cooldowns
      [ruleDelay]).fired = some 0 := by
  have h := C3_cooldown_marked_before_delay netBot msgPing ruleDelay ⟨"#c", 7⟩ 2
    10000 12000 16000 (by decide) (by decide) (by decide) (by decide) (by decide)
    (by decide) (by decide)
  exact ⟨h.1, h.2.2.2.1, h.2.2.2.2⟩

theorem join_map_lit (m : List (Option String)) (l : List Char) :
    ((l.map DTok.lit).map (renderDTok m)).flatten = l := by
  induction l with
  | nil => rfl
  | cons c rest ih =>
    simp only [List.map_cons, List.flatten_cons, renderDTok]
    rw [ih]
    rfl

theorem applyDollarF_eq_render (m : List (Option String)) :
    ∀ (fuel : Nat) (cs : List Char),
      applyDollarF m fuel cs = ((dollarTokensF fuel cs).map (renderDTok m)).flatten := by
  intro fuel
  induction fuel with
  | zero =>
    intro cs
    cases cs with
    | nil => rfl
    | cons c rest => exact (join_map_lit m (c :: rest)).symm
  | succ fuel ih =>
    intro cs
    match cs with
    | [] => rfl
    | [c] => rfl
    | c :: d :: rest2 =>
      simp only [applyDollarF, dollarTokensF]
      by_cases hc : c = '$'
      · rw [if_pos hc, if_pos hc]
        by_cases hd : d.isDigit = true
        · rw [if_pos hd, if_pos hd]
          simp only [List.map_cons, List.flatten_cons, renderDTok]
          by_cases hcond : 0 < d.toNat - 48 ∧ d.toNat - 48 < m.length
              ∧ truthyOptStr (m.getD (d.toNat - 48) none)
          · rw [if_pos hcond, if_pos hcond, ih]
          · rw [if_neg hcond, if_neg hcond, ih, hc]
            rfl
        · rw [if_neg hd, if_neg hd]
          simp only [List.map_cons, List.flatten_cons, renderDTok]
          rw [ih]
          rfl
      · rw [if_neg hc, if_neg hc]
        simp only [List.map_cons, List.flatten_cons, renderDTok]
        rw [ih]
        rfl

theorem render_short (m : List (Option String)) (hm : ¬ 1 < m.length) :
    ∀ (fuel : Nat) (cs : List Char),
      ((dollarTokensF fuel cs).map (renderDTok m)).flatten = cs := by
  intro fuel
  induction fuel with
  | zero =>
    intro cs
    cases cs with
    | nil => rfl
    | cons c rest => exact join_map_lit m (c :: rest)
  | succ fuel ih =>
    intro cs
    match cs with
    | [] => rfl
    | [c] => rfl
    | c :: d :: rest2 =>
      simp only [dollarTokensF]
      by_cases hc : c = '$'
      · rw [if_pos hc]
        by_cases hd : d.isDigit = true
        · rw [if_pos hd]
          have hcond : ¬ (0 < d.toNat - 48 ∧ d.toNat - 48 < m.length
              ∧ truthyOptStr (m.getD (d.toNat - 48) none)) := by
            rintro ⟨h1, h2, _⟩
            omega
          simp only [List.map_cons, List.flatten_cons, renderDTok]
          rw [if_neg hcond, ih, hc]
          rfl
        · rw [if_neg hd]
          simp only [List.map_cons, List.flatten_cons, renderDTok]
          rw [ih]
          rfl
      · rw [if_neg hc]
        simp only [List.map_cons, List.flatten_cons, renderDTok]
        rw [ih]
        rfl

/-- Counterexample to C2 as stated: a capture group that is present and
non-null but empty is not substituted (the placeholder stays literal,
both in `buildResponseText` and in an actual dispatched send), and a
multi-digit reference `$12` is not resolved as group 12 — it is read as
`$1` followed by a literal `2`, so a placeholder whose group is absent
is not always left as its literal text. -/
theorem C2_counterexample_empty_and_multidigit :
    buildResponseText (some "$1") "Alice" [some "ac", some ""] = "$1" ∧
    [some "ac", some ""].getD 1 none = some "" ∧
    buildResponseText (some "$12") "A" [some "m", some "pizza", some "soda"] = "pizza2" ∧
    (createPrivmsgHandler netBot msgAc 100 emptyCooldowns [ruleEmptyCap]).sends.map
      (fun snd => snd.text) = ["$1"] := by
  exact ⟨by decide, by decide, by decide, by decide⟩

/-- C2 (amended): the dispatched response text is `response_text` with
every `{{sender}}` replaced by the sender's nick, and then every
single-digit placeholder `$N` (`1 ≤ N ≤ 9`) replaced by the N-th
capture group exactly when that group exists in the match result,
participated, and is non-empty — otherwise the placeholder text stays
(in particular `$12` is `$1` then a literal `2`, an empty capture is
not substituted, and when the match result carries no capture groups
nothing is substituted). -/
theorem C2_amended_response_substitution (rt : Option String) (nick : String)
    (m : List (Option String)) :
    buildResponseText rt nick m = claimResponseText rt nick m := by
  unfold buildResponseText claimResponseText
  by_cases h : 1 < m.length
  · rw [if_pos h]
    exact congrArg String.mk (applyDollarF_eq_render m _ _)
  · rw [if_neg h]
    exact (congrArg String.mk (render_short m h _ _)).symm

/-! ## Metacharacter-free triggers parse to literal sequences and
match exactly the substring occurrences (claim C9) -/

theorem applyQuant_no_meta (a : Re) (b : Bool) (cs : List Char)
    (hmeta : ∀ c ∈ cs, c ∉ jsRegexMetachars) :
    applyQuant a b cs = .ok (a, cs) := by
  cases cs with
  | nil => rfl
  | cons q rest =>
    have hq : q ∉ jsRegexMetachars := hmeta q (by simp)
    have h1 : q ≠ '*' := fun h => hq (by rw [h]; decide)
    have h2 : q ≠ '+' := fun h => hq (by rw [h]; decide)
    have h3 : q ≠ '?' := fun h => hq (by rw [h]; decide)
    rw [applyQuant]
    rw [if_neg h1, if_neg h2, if_neg h3]

theorem parseSeq_lits (cs : List Char) (hmeta : ∀ c ∈ cs, c ∉ jsRegexMetachars) :
    ∀ (fuel g : Nat), cs.length < fuel → parseSeq fuel cs g = .ok (mkLits cs, [], g) := by
  induction cs with
  | nil =>
    intro fuel g hf
    match fuel, hf with
    | fuel + 1, _ => rfl
  | cons c rest ih =>
    intro fuel g hf
    match fuel, hf with
    | fuel + 1, hf =>
      have hmeta' : ∀ x ∈ rest, x ∉ jsRegexMetachars := fun x hx => hmeta x (by simp [hx])
      have hc : c ∉ jsRegexMetachars := hmeta c (by simp)
      have h1 : c ≠ ')' := fun h => hc (by rw [h]; decide)
      have h2 : c ≠ '|' := fun h => hc (by rw [h]; decide)
      have h3 : c ≠ '[' := fun h => hc (by rw [h]; decide)
      have h4 : ¬(c = '*' ∨ c = '+' ∨ c = '?') := by
        rintro (h | h | h) <;> exact hc (by rw [h]; decide)
      have h5 : c ≠ '(' := fun h => hc (by rw [h]; decide)
      have h6 : c ≠ '\\' := fun h => hc (by rw [h]; decide)
      have h7 : c ≠ '^' := fun h => hc (by rw [h]; decide)
      have h8 : c ≠ '$' := fun h => hc (by rw [h]; decide)
      have h9 : c ≠ '.' := fun h => hc (by rw [h]; decide)
      simp only [parseSeq]
      simp only [if_neg h1, if_neg h2, if_neg h3, if_neg h4, if_neg h5, if_neg h6,
        if_neg h7, if_neg h8, if_neg h9]
      rw [applyQuant_no_meta _ _ rest hmeta']
      show seqJoin (Re.atom (RAtom.lit c)) (parseSeq fuel rest g)
        = Except.ok (mkLits (c :: rest), [], g)
      rw [ih hmeta' fuel g (by simp only [List.length_cons] at hf; omega)]
      rfl

/-- The size of a literal-sequence regex. -/
theorem reSize_mkLits (cs : List Char) : reSize (mkLits cs) = 2 * cs.length + 1 := by
  induction cs with
  | nil => rfl
  | cons c rest ih =>
    show reSize (Re.seq (Re.atom (RAtom.lit c)) (mkLits rest)) = _
    rw [reSize, ih, reSize]
    simp only [List.length_cons]
    ring

theorem reM_mkLits (s : List Char) (ic : Bool) (cs : List Char) :
    ∀ (fuel pos : Nat) (caps : Caps) (k : Nat → Caps → Option (Nat × Caps)),
      cs.length < fuel →
      reM s ic fuel (mkLits cs) pos caps k
        = if litsMatchAt s ic cs pos then k (pos + cs.length) caps else none := by
  induction cs with
  | nil =>
    intro fuel pos caps k hf
    match fuel, hf with
    | fuel + 1, _ => simp [reM, mkLits, litsMatchAt]
  | cons c rest ih =>
    intro fuel pos caps k hf
    match fuel, hf with
    | fuel + 1, hf =>
      obtain ⟨fuel2, rfl⟩ : ∃ f2, fuel = f2 + 1 :=
        ⟨fuel - 1, by simp only [List.length_cons] at hf; omega⟩
      show reM s ic (fuel2 + 1 + 1) (Re.seq (Re.atom (RAtom.lit c)) (mkLits rest)) pos caps k = _
      rw [reM, reM, litsMatchAt]
      cases hg : s[pos]? with
      | none => simp only [hg]; simp
      | some x =>
        simp only [hg]
        by_cases hx : atomMatch ic (RAtom.lit c) x = true
        · rw [if_pos hx]
          rw [ih (fuel2 + 1) (pos + 1) caps k (by simp only [List.length_cons] at hf; omega)]
          simp only [hx, Bool.true_and]
          by_cases hl : litsMatchAt s ic rest (pos + 1) = true
          · rw [if_pos hl, if_pos hl]
            exact congrArg (fun t => k t caps) (by simp only [List.length_cons]; omega)
          · rw [if_neg hl, if_neg hl]
        · rw [if_neg hx]
          simp [hx]

theorem litsMatchAt_iff_leading (s cs : List Char) :
    ∀ pos, litsMatchAt s false cs pos = true ↔ cs <+: s.drop pos := by
  induction cs with
  | nil => intro pos; simp [litsMatchAt]
  | cons c rest ih =>
    intro pos
    rw [litsMatchAt]
    cases hg : s[pos]? with
    | none =>
      have hlen : s.length ≤ pos := by
        simpa using List.getElem?_eq_none_iff.mp hg
      rw [List.drop_eq_nil_of_le hlen]
      simp
    | some x =>
      have hlt : pos < s.length := by
        by_contra hge
        rw [List.getElem?_eq_none_iff.mpr (by omega)] at hg
        cases hg
      have hdrop : s.drop pos = x :: s.drop (pos + 1) := by
        rw [List.drop_eq_getElem_cons hlt]
        congr 1
        have h2 := List.getElem?_eq_getElem hlt
        rw [h2] at hg
        exact Option.some_inj.mp hg
      rw [hdrop, List.cons_prefix_cons, ← ih (pos + 1)]
      show (atomMatch false (RAtom.lit c) x && litsMatchAt s false rest (pos + 1)) = true
        ↔ c = x ∧ litsMatchAt s false rest (pos + 1) = true
      rw [Bool.and_eq_true]
      have hat : atomMatch false (RAtom.lit c) x = true ↔ c = x := by
        simp [atomMatch, eq_comm]
      exact and_congr hat Iff.rfl

theorem matchFrom_isSome_of_lits (s : List Char) (nG : Nat) (cs : List Char) :
    ∀ (fuel start : Nat), s.length + 1 - start ≤ fuel →
      (∃ p, start ≤ p ∧ p ≤ s.length ∧ litsMatchAt s false cs p = true) →
      (matchFrom s false nG (mkLits cs) fuel start).isSome = true := by
  intro fuel
  induction fuel with
  | zero =>
    rintro start hf ⟨p, hsp, hps, _⟩
    omega
  | succ fuel ih =>
    rintro start hf ⟨p, hsp, hps, hl⟩
    rw [matchFrom]
    have hfuel : cs.length < (s.length + 2) * (reSize (mkLits cs) + 2) := by
      rw [reSize_mkLits]
      have h2 : 2 * (2 * cs.length + 1 + 2) ≤ (s.length + 2) * (2 * cs.length + 1 + 2) :=
        Nat.mul_le_mul_right _ (by omega)
      omega
    rw [reM_mkLits s false cs _ start (List.replicate nG none) _ hfuel]
    by_cases hstart : litsMatchAt s false cs start = true
    · rw [if_pos hstart]
      rfl
    · rw [if_neg hstart]
      have hne : p ≠ start := fun h => hstart (h ▸ hl)
      have hlt : start < s.length := by omega
      rw [if_pos hlt]
      exact ih (start + 1) (by omega) ⟨p, by omega, hps, hl⟩

theorem replaceAllListF_no_brace (rep : List Char) :
    ∀ (fuel : Nat) (l : List Char), (∀ c ∈ l, c ∉ jsRegexMetachars) →
      replaceAllListF mePat.data rep fuel l = l := by
  intro fuel
  induction fuel with
  | zero => intro l _; cases l <;> rfl
  | succ fuel ih =>
    intro l hmeta
    cases l with
    | nil => rfl
    | cons c rest =>
      rw [replaceAllListF]
      rw [if_neg ?hpre]
      case hpre =>
        rintro ⟨-, hpre⟩
        have hme : mePat.data = '\x7b' :: '\x7b' :: 'm' :: 'e' :: '\x7d' :: '\x7d' :: [] := rfl
        rw [hme, List.isPrefixOf] at hpre
        have hc : c = '\x7b' := by
          rcases List.cons_prefix_cons.mp (by simpa using hpre) with ⟨h, -⟩
          exact h.symm
        exact hmeta c (by simp) (by rw [hc]; decide)
      exact congrArg (c :: ·) (ih rest (fun x hx => hmeta x (by simp [hx])))

/-- C9: a trigger containing no JS regex metacharacter (and hence no
`{{me}}` placeholder, since braces are metacharacters) is untouched by
`{{me}}` substitution, compiles (with empty flags) to the literal
sequence of its characters, and matches every message that contains the
trigger as a literal substring: regex triggers refine literal-substring
triggers. -/
theorem C9_substring_triggers_refined (trig msg nick : String)
    (hmeta : ∀ c ∈ trig.data, c ∉ jsRegexMetachars)
    (hsub : literalSubstringMatch trig msg) :
    replaceAllStr mePat nick trig = trig ∧
    compileRegex trig "" = .ok ⟨mkLits trig.data, 0, false⟩ ∧
    (jsMatch ⟨mkLits trig.data, 0, false⟩ msg).isSome = true := by
  refine ⟨?_, ?_, ?_⟩
  · show (⟨replaceAllListF mePat.data nick.data trig.data.length trig.data⟩ : String) = trig
    rw [replaceAllListF_no_brace nick.data trig.data.length trig.data hmeta]
  · unfold compileRegex parseRegex
    rw [if_pos (by decide)]
    rw [parseSeq_lits trig.data hmeta (2 * trig.data.length + 2) 0 (by omega)]
    rfl
  · obtain ⟨pre, suf, hsplit⟩ := hsub
    have hdrop : msg.data.drop pre.length = trig.data ++ suf := by
      rw [← hsplit]
      rw [show pre ++ trig.data ++ suf = pre ++ (trig.data ++ suf) from by simp]
      exact List.drop_left pre (trig.data ++ suf)
    have hlits : litsMatchAt msg.data false trig.data pre.length = true := by
      rw [litsMatchAt_iff_leading, hdrop]
      exact List.prefix_append trig.data suf
    have hlen : pre.length ≤ msg.data.length := by
      rw [← hsplit]
      simp
    have hsome := matchFrom_isSome_of_lits msg.data 0 trig.data (msg.data.length + 1) 0
      (by omega) ⟨pre.length, by omega, hlen, hlits⟩
    unfold jsMatch
    rcases hmf : matchFrom msg.data false 0 (mkLits trig.data) (msg.data.length + 1) 0 with
      _ | ⟨st, e, caps⟩
    · rw [hmf] at hsome
      simp at hsome
    · simp

/-- Witness for C9: the metacharacter-free trigger `ping` matches the
message `ah ping!`, which contains it as a substring. -/
theorem C9_substring_triggers_refined_witness :
    (∀ c ∈ ("ping" : String).data, c ∉ jsRegexMetachars) ∧
    literalSubstringMatch "ping" "ah ping!" ∧
    compileRegex "ping" "" = .ok ⟨mkLits ("ping" : String).data, 0, false⟩ ∧
    (jsMatch ⟨mkLits ("ping" : String).data, 0, false⟩ "ah ping!").isSome = true := by
  have h := C9_substring_triggers_refined "ping" "ah ping!" "Bot" (by decide)
    (by unfold literalSubstringMatch; decide)
  exact ⟨by decide, by unfold literalSubstringMatch; decide, h.2.1, h.2.2⟩

/-! ## Merge lemmas (claims C5 and C10) -/

theorem mapSet_fst (m : List (String × Rule)) (k : String) (v : Rule) :
    (mapSet m k v).map Prod.fst
      = if k ∈ m.map Prod.fst then m.map Prod.fst else m.map Prod.fst ++ [k] := by
  unfold mapSet
  have hmem : (m.any (fun p => p.1 = k)) = true ↔ k ∈ m.map Prod.fst := by
    rw [List.any_eq_true]
    simp only [List.mem_map, decide_eq_true_eq]
  by_cases h : m.any (fun p => p.1 = k) = true
  · rw [if_pos h, if_pos (hmem.mp h)]
    rw [List.map_map]
    apply List.map_congr_left
    intro p _
    by_cases hp : p.1 = k
    · simp [hp]
    · simp [hp]
  · rw [if_neg h, if_neg (fun hk => h (hmem.mpr hk))]
    simp

theorem mapSet_fst_nodup (m : List (String × Rule)) (k : String) (v : Rule)
    (h : (m.map Prod.fst).Nodup) : ((mapSet m k v).map Prod.fst).Nodup := by
  rw [mapSet_fst]
  by_cases hk : k ∈ m.map Prod.fst
  · rwa [if_pos hk]
  · rw [if_neg hk]
    rw [List.nodup_append]
    refine ⟨h, List.nodup_singleton k, ?_⟩
    intro a ha hb
    rw [List.mem_singleton] at hb
    subst hb
    exact hk ha

theorem mapSet_fst_toFinset (m : List (String × Rule)) (k : String) (v : Rule) :
    ((mapSet m k v).map Prod.fst).toFinset = insert k (m.map Prod.fst).toFinset := by
  rw [mapSet_fst]
  by_cases hk : k ∈ m.map Prod.fst
  · rw [if_pos hk, (Finset.insert_eq_self.mpr (by simpa using hk))]
  · rw [if_neg hk]
    simp [List.toFinset_append, Finset.union_comm, Finset.insert_eq]

theorem mapSet_length (m : List (String × Rule)) (k : String) (v : Rule) :
    (mapSet m k v).length
      = if k ∈ m.map Prod.fst then m.length else m.length + 1 := by
  have h := congrArg List.length (mapSet_fst m k v)
  simp only [List.length_map] at h
  by_cases hk : k ∈ m.map Prod.fst
  · rw [if_pos hk]
    rw [if_pos hk] at h
    simpa using h
  · rw [if_neg hk]
    rw [if_neg hk] at h
    simpa using h

theorem mapSet_keyed (m : List (String × Rule)) (k : String) (v : Rule)
    (hm : ∀ p ∈ m, p.1 = createRuleKey p.2) (hk : k = createRuleKey v) :
    ∀ p ∈ mapSet m k v, p.1 = createRuleKey p.2 := by
  unfold mapSet
  by_cases h : m.any (fun p => p.1 = k) = true
  · rw [if_pos h]
    intro p hp
    rw [List.mem_map] at hp
    obtain ⟨q, hq, hpq⟩ := hp
    by_cases hqk : q.1 = k
    · rw [if_pos hqk] at hpq
      rw [← hpq]
      exact hk
    · rw [if_neg hqk] at hpq
      rw [← hpq]
      exact hm q hq
  · rw [if_neg h]
    intro p hp
    rcases List.mem_append.mp hp with hp | hp
    · exact hm p hp
    · rw [List.mem_singleton.mp hp]
      exact hk

theorem insertAll_fst_nodup (l : List Rule) :
    ∀ (m : List (String × Rule)), (m.map Prod.fst).Nodup
      → ((insertAll m l).map Prod.fst).Nodup := by
  induction l with
  | nil => intro m hm; exact hm
  | cons r rest ih =>
    intro m hm
    exact ih _ (mapSet_fst_nodup m _ r hm)

theorem insertAll_fst_toFinset (l : List Rule) :
    ∀ (m : List (String × Rule)),
      ((insertAll m l).map Prod.fst).toFinset
        = (m.map Prod.fst).toFinset ∪ (l.map createRuleKey).toFinset := by
  induction l with
  | nil => intro m; simp [insertAll]
  | cons r rest ih =>
    intro m
    show ((insertAll (mapSet m (createRuleKey r) r) rest).map Prod.fst).toFinset = _
    rw [ih, mapSet_fst_toFinset]
    simp [Finset.insert_union, Finset.union_insert]

theorem insertAll_keyed (l : List Rule) :
    ∀ (m : List (String × Rule)), (∀ p ∈ m, p.1 = createRuleKey p.2)
      → ∀ p ∈ insertAll m l, p.1 = createRuleKey p.2 := by
  induction l with
  | nil => intro m hm; exact hm
  | cons r rest ih =>
    intro m hm
    exact ih _ (mapSet_keyed m _ r hm rfl)

theorem mergeCount_fst (l : List Rule) :
    ∀ (m : List (String × Rule)), (mergeCount m l).1 = insertAll m l := by
  induction l with
  | nil => intro m; rfl
  | cons r rest ih =>
    intro m
    show (mergeCount (mapSet m (createRuleKey r) r) rest).1 = _
    exact ih _

theorem mergeCount_counters (l : List Rule) :
    ∀ (m : List (String × Rule)),
      (mergeCount m l).2.1 + (mergeCount m l).2.2 = l.length := by
  induction l with
  | nil => intro m; rfl
  | cons r rest ih =>
    intro m
    show ((if m.any (fun p => p.1 = createRuleKey r) = true then 0 else 1)
        + (mergeCount (mapSet m (createRuleKey r) r) rest).2.1)
      + ((if m.any (fun p => p.1 = createRuleKey r) = true then 1 else 0)
        + (mergeCount (mapSet m (createRuleKey r) r) rest).2.2) = rest.length + 1
    have := ih (mapSet m (createRuleKey r) r)
    by_cases h : m.any (fun p => p.1 = createRuleKey r) = true
    · rw [if_pos h, if_pos h]
      omega
    · rw [if_neg h, if_neg h]
      omega

/-- C10 (amended): `mergeRules` returns a list whose join-keys
`server|listen_channel|trigger_text` are pairwise distinct, whose
length is the number of distinct join-keys across both input lists
(so duplicate keys already inside the existing list collapse, even with
an empty incoming list), and counters with
`added + overwritten = |incoming|`. (As stated — with identity the
triple rather than the joined key — the claim fails, see the
counterexample: two distinct triples can share a join-key.) -/
theorem C10_amended_merge_invariants (existingRules newRules : List Rule) :
    ((mergeRules existingRules newRules).mergedRules.map createRuleKey).Nodup ∧
    (mergeRules existingRules newRules).mergedRules.length
      = ((existingRules ++ newRules).map createRuleKey).toFinset.card ∧
    (mergeRules existingRules newRules).added + (mergeRules existingRules newRules).overwritten
      = newRules.length := by
  have hfst : (mergeRules existingRules newRules).mergedRules.map createRuleKey
      = ((mergeCount (insertAll [] existingRules) newRules).1.map Prod.fst) := by
    show ((mergeCount (insertAll [] existingRules) newRules).1.map (fun p => p.2)).map
        createRuleKey = _
    rw [List.map_map]
    apply List.map_congr_left
    intro p hp
    have hkeyed : ∀ q ∈ (mergeCount (insertAll [] existingRules) newRules).1,
        q.1 = createRuleKey q.2 := by
      rw [mergeCount_fst]
      exact insertAll_keyed newRules _ (insertAll_keyed existingRules [] (by simp))
    exact (hkeyed p hp).symm
  have hnodup : (((mergeCount (insertAll [] existingRules) newRules).1).map Prod.fst).Nodup := by
    rw [mergeCount_fst]
    exact insertAll_fst_nodup newRules _ (insertAll_fst_nodup existingRules [] (by simp))
  refine ⟨by rw [hfst]; exact hnodup, ?_, ?_⟩
  · have hlen : (mergeRules existingRules newRules).mergedRules.length
        = ((mergeCount (insertAll [] existingRules) newRules).1.map Prod.fst).length := by
      have := congrArg List.length hfst
      simpa using this
    rw [hlen, ← List.toFinset_card_of_nodup hnodup]
    congr 1
    rw [mergeCount_fst, insertAll_fst_toFinset, insertAll_fst_toFinset]
    simp [List.toFinset_append]
  · exact mergeCount_counters newRules (insertAll [] existingRules)

/-- Counterexample to C10 as stated: with an empty existing list and
two incoming rules whose identity triples differ but whose joined keys
collide (`x|y`,`z`,`u` versus `x`,`y|z`,`u`), the merged list has one
entry while the inputs carry two distinct identity triples. -/
theorem C10_counterexample_key_collision :
    ruleId ruleKeyC ≠ ruleId ruleKeyD ∧
    (mergeRules [] [ruleKeyC, ruleKeyD]).mergedRules.length
      ≠ ((([] : List Rule) ++ [ruleKeyC, ruleKeyD]).map ruleId).toFinset.card := by
  constructor
  · decide
  · show (mergeRules [] [ruleKeyC, ruleKeyD]).mergedRules.length
      ≠ (([ruleKeyC, ruleKeyD] : List Rule).map ruleId).toFinset.card
    decide

/-- C5 (the code bug, evaluated): `mergeRules` joins the identity
fields with `|`, so the two rules above — distinct identity triples —
collide on the key `x|y|z|u`-style join: the incoming rule overwrites
the existing one in place (`added = 0`, `overwritten = 1`, one merged
rule) although the documented identity (the triple) differs. -/
theorem C5_merge_key_collision_eval :
    mergeRules [ruleKeyA] [ruleKeyB] = ⟨[ruleKeyB], 0, 1⟩ ∧
    ruleId ruleKeyA ≠ ruleId ruleKeyB ∧
    createRuleKey ruleKeyA = createRuleKey ruleKeyB := by
  exact ⟨by decide, by decide, by decide⟩

/-! ## Loading rules (claim C4) -/

/-- Counterexample to C4 as stated: `loadRules` has a fourth terminal
outcome. A read failure that is neither `ENOENT` nor a parse error
(for example a permission error) produces the generic message, which
matches none of the three outcome shapes the claim enumerates. -/
theorem C4_counterexample_fourth_outcome :
    ¬ (loadSuccessShape (loadRules "rules.json" loadedState .otherError true) ∨
       loadNotFoundShape "rules.json" loadedState
         (loadRules "rules.json" loadedState .otherError true) ∨
       loadParseFailShape "rules.json" loadedState
         (loadRules "rules.json" loadedState .otherError true)) := by
  rintro (⟨-, hmsg, -⟩ | ⟨-, hmsg⟩ | ⟨-, hmsg⟩) <;> exact absurd hmsg (by decide)

/-- C4 (amended): `loadRules` has the three claimed outcomes — success
replaces the rule set, clears every cooldown and hands the callback a
human-readable count; file-not-found and parse failure leave the state
untouched, each with its own named message — plus a fourth: any other
read error likewise leaves the state untouched and is reported with a
generic message. The three error messages are pairwise distinct at
every path. -/
theorem C4_amended_load_outcomes (path : String) (st : AMState) (hasCb : Bool) :
    (∀ newRules : List Rule,
      (loadRules path st (.ok (.ok newRules)) hasCb).state.rules = newRules ∧
      (∀ j, (loadRules path st (.ok (.ok newRules)) hasCb).state.ruleCooldowns j = none) ∧
      (loadRules path st (.ok (.ok newRules)) hasCb).message
        = "Rules successfully reloaded. Found " ++ toString newRules.length ++ " rules." ∧
      (loadRules path st (.ok (.ok newRules)) hasCb).told
        = (if hasCb then
            some ("Rules successfully reloaded. Found " ++ toString newRules.length ++ " rules.")
           else none)) ∧
    (∀ perr : Unit,
      (loadRules path st (.ok (.error perr)) hasCb).state = st ∧
      (loadRules path st (.ok (.error perr)) hasCb).message
        = "ERROR: Failed to parse " ++ path ++ ". Please check for JSON syntax errors.") ∧
    ((loadRules path st .enoent hasCb).state = st ∧
      (loadRules path st .enoent hasCb).message
        = "ERROR: Configuration file not found at " ++ path ++ ".") ∧
    ((loadRules path st .otherError hasCb).state = st ∧
      (loadRules path st .otherError hasCb).message
        = "ERROR: Could not read rules from " ++ path ++ ".") ∧
    "ERROR: Configuration file not found at " ++ path ++ "."
      ≠ "ERROR: Failed to parse " ++ path ++ ". Please check for JSON syntax errors." ∧
    "ERROR: Configuration file not found at " ++ path ++ "."
      ≠ "ERROR: Could not read rules from " ++ path ++ "." ∧
    "ERROR: Failed to parse " ++ path ++ ". Please check for JSON syntax errors."
      ≠ "ERROR: Could not read rules from " ++ path ++ "." := by
  refine ⟨fun newRules => ⟨rfl, fun j => rfl, rfl, rfl⟩, fun perr => ⟨rfl, rfl⟩,
    ⟨rfl, rfl⟩, ⟨rfl, rfl⟩, ?_, ?_, ?_⟩
  · intro h
    have hl := congrArg String.length h
    simp only [String.length_append] at hl
    have e1 : ("ERROR: Configuration file not found at ").length = 39 := by decide
    have e2 : (".").length = 1 := by decide
    have e3 : ("ERROR: Failed to parse ").length = 23 := by decide
    have e4 : (". Please check for JSON syntax errors.").length = 38 := by decide
    rw [e1, e2, e3, e4] at hl
    omega
  · intro h
    have hl := congrArg String.length h
    simp only [String.length_append] at hl
    have e1 : ("ERROR: Configuration file not found at ").length = 39 := by decide
    have e2 : (".").length = 1 := by decide
    have e3 : ("ERROR: Could not read rules from ").length = 33 := by decide
    rw [e1, e2, e3] at hl
    omega
  · intro h
    have hl := congrArg String.length h
    simp only [String.length_append] at hl
    have e1 : ("ERROR: Failed to parse ").length = 23 := by decide
    have e2 : (". Please check for JSON syntax errors.").length = 38 := by decide
    have e3 : ("ERROR: Could not read rules from ").length = 33 := by decide
    have e4 : (".").length = 1 := by decide
    rw [e1, e2, e3, e4] at hl
    omega

/-! ## Validation lemmas (claim C6) -/

theorem find_setField_same (fields : List (String × JsonValue)) (k : String) (v : JsonValue) :
    (setField fields k v).find? (fun q => q.1 = k)
      = ((fields.find? (fun q => q.1 = k)).map (fun _ => (k, v))) := by
  induction fields with
  | nil => rfl
  | cons p rest ih =>
    show ((if p.1 = k then (k, v) else p) :: setField rest k v).find? (fun q => q.1 = k) = _
    by_cases hp : p.1 = k
    · rw [if_pos hp]
      rw [List.find?_cons_of_pos _ (by simp), List.find?_cons_of_pos _ (by simp [hp])]
      rfl
    · rw [if_neg hp]
      rw [List.find?_cons_of_neg _ (by simp [hp]), List.find?_cons_of_neg _ (by simp [hp])]
      exact ih

theorem find_setField_other (fields : List (String × JsonValue)) (k f : String)
    (v : JsonValue) (hne : f ≠ k) :
    (setField fields k v).find? (fun q => q.1 = f) = fields.find? (fun q => q.1 = f) := by
  induction fields with
  | nil => rfl
  | cons p rest ih =>
    show ((if p.1 = k then (k, v) else p) :: setField rest k v).find? (fun q => q.1 = f) = _
    by_cases hp : p.1 = k
    · rw [if_pos hp]
      rw [List.find?_cons_of_neg _ (by simp; exact fun h => hne h.symm),
        List.find?_cons_of_neg _ (by simp [hp]; exact fun h => hne h.symm)]
      exact ih
    · rw [if_neg hp]
      by_cases hpf : p.1 = f
      · rw [List.find?_cons_of_pos _ (by simp [hpf]), List.find?_cons_of_pos _ (by simp [hpf])]
      · rw [List.find?_cons_of_neg _ (by simp [hpf]), List.find?_cons_of_neg _ (by simp [hpf])]
        exact ih

theorem validateNumField_ok (idx : Nat) (field : String)
    (fields fields' : List (String × JsonValue))
    (h : validateNumField idx field fields = (fields', none)) :
    fieldOkB (.obj fields') field = true ∧
    (∀ f, f ≠ field → fields'.find? (fun q => q.1 = f) = fields.find? (fun q => q.1 = f)) := by
  unfold validateNumField at h
  rcases hfind : (fields.find? (fun q => q.1 = field)).map (fun q => q.2) with _ | v
  · rw [hfind] at h
    have h1 : fields = fields' := by
      injection h
    subst h1
    refine ⟨?_, fun f _ => rfl⟩
    simp only [fieldOkB, getField]
    rw [hfind]
  · rw [hfind] at h
    rcases v with _ | b | q | st | items | fobj
    · simp at h
    · simp at h
    · have h1 : fields = fields' := by
        injection h
      subst h1
      refine ⟨?_, fun f _ => rfl⟩
      simp only [fieldOkB, getField]
      rw [hfind]
    · have h2 : (if jsTrim st ≠ "" then
          match jsNumberOfString st with
          | some q => (setField fields field (JsonValue.num q), none)
          | none => (fields, some (nonNumericMsg idx field st))
        else ((fields, some (invalidTypeMsg idx field)) :
          List (String × JsonValue) × Option String)) = (fields', none) := h
      by_cases htr : jsTrim st ≠ ""
      · rw [if_pos htr] at h2
        rcases hnum : jsNumberOfString st with _ | q
        · rw [hnum] at h2
          simp at h2
        · rw [hnum] at h2
          have h1 : setField fields field (.num q) = fields' := by
            injection h2
          subst h1
          refine ⟨?_, fun f hf => find_setField_other fields field f _ hf⟩
          simp only [fieldOkB, getField]
          rw [find_setField_same]
          rcases hf2 : fields.find? (fun q2 => q2.1 = field) with _ | p
          · rw [hf2] at hfind
            simp at hfind
          · rw [hf2]
            rfl
      · rw [if_neg htr] at h2
        simp at h2
    · simp at h
    · simp at h

theorem validateRule_ok (idx : Nat) (v v' : JsonValue)
    (h : validateRule idx v = (v', none)) :
    fieldOkB v' "cooldown_seconds" = true ∧ fieldOkB v' "delay_seconds" = true := by
  rcases v with _ | b | q | st | items | fields
  · have h2 : ((JsonValue.null, some ("Rule #" ++ toString (idx + 1) ++ " is not a valid object.")) : JsonValue × Option String) = (v', none) := h
    simp at h2
  · have h2 : ((JsonValue.bool b, some ("Rule #" ++ toString (idx + 1) ++ " is not a valid object.")) : JsonValue × Option String) = (v', none) := h
    simp at h2
  · have h2 : ((JsonValue.num q, some ("Rule #" ++ toString (idx + 1) ++ " is not a valid object.")) : JsonValue × Option String) = (v', none) := h
    simp at h2
  · have h2 : ((JsonValue.str st, some ("Rule #" ++ toString (idx + 1) ++ " is not a valid object.")) : JsonValue × Option String) = (v', none) := h
    simp at h2
  · have h2 : ((JsonValue.arr items, some (missingMsg idx "server")) : JsonValue × Option String) = (v', none) := h
    simp at h2
  · have h3 : (match checkRequiredProps idx fields requiredStrings with
        | some e => (JsonValue.obj fields, some e)
        | none =>
          let r1 := validateNumField idx "cooldown_seconds" fields
          match r1.2 with
          | some e => (JsonValue.obj r1.1, some e)
          | none =>
            let r2 := validateNumField idx "delay_seconds" r1.1
            ((JsonValue.obj r2.1, r2.2) : JsonValue × Option String)) = (v', none) := h
    rcases hreq : checkRequiredProps idx fields requiredStrings with _ | e
    · rw [hreq] at h3
      rcases h1 : validateNumField idx "cooldown_seconds" fields with ⟨fields2, e1⟩
      rw [h1] at h3
      rcases e1 with _ | e1
      · have h4 : ((JsonValue.obj (validateNumField idx "delay_seconds" fields2).1,
            (validateNumField idx "delay_seconds" fields2).2) : JsonValue × Option String)
            = (v', none) := h3
        rcases h2 : validateNumField idx "delay_seconds" fields2 with ⟨fields3, e2⟩
        rw [h2] at h4
        have hv' : v' = JsonValue.obj fields3 := (((Prod.mk.injEq _ _ _ _).mp h4).1).symm
        have he2 : e2 = none := ((Prod.mk.injEq _ _ _ _).mp h4).2
        subst hv'
        subst he2
        have hv1 := validateNumField_ok idx "cooldown_seconds" fields fields2 h1
        have hv2 := validateNumField_ok idx "delay_seconds" fields2 fields3 h2
        refine ⟨?_, hv2.1⟩
        simp only [fieldOkB, getField]
        rw [hv2.2 "cooldown_seconds" (by decide)]
        have hc := hv1.1
        simp only [fieldOkB, getField] at hc
        exact hc
      · have h4 : ((JsonValue.obj fields2, some e1) : JsonValue × Option String) = (v', none) := h3
        simp at h4
    · rw [hreq] at h3
      have h4 : ((JsonValue.obj fields, some e) : JsonValue × Option String) = (v', none) := h3
      simp at h4

theorem validateLoop_ok (items : List JsonValue) :
    ∀ (idx : Nat) (items' : List JsonValue), validateLoop idx items = (items', none) →
      ∀ r ∈ items', fieldOkB r "cooldown_seconds" = true ∧ fieldOkB r "delay_seconds" = true := by
  induction items with
  | nil =>
    intro idx items' h r hr
    obtain ⟨rfl, -⟩ := Prod.mk.injEq .. ▸ h
    cases hr
  | cons v rest ih =>
    intro idx items' h r hr
    unfold validateLoop at h
    rcases hv : validateRule idx v with ⟨v', ev⟩
    rw [hv] at h
    rcases ev with _ | ev
    · simp only at h
      rcases hrest : validateLoop (idx + 1) rest with ⟨rest', er⟩
      rw [hrest] at h
      obtain ⟨rfl, he⟩ := Prod.mk.injEq .. ▸ h
      subst he
      rcases List.mem_cons.mp hr with rfl | hr2
      · exact validateRule_ok idx v r hv
      · exact ih (idx + 1) rest' hrest r hr2
    · simp only at h
      cases (Prod.mk.injEq .. ▸ h).2

/-- Counterexample to C6 as stated: a negative `cooldown_seconds`
passes validation unchanged — values that pass are not necessarily
non-negative — and for a non-number, non-string field value the
failure message names the field but not the received value. -/
theorem C6_counterexample_negative_and_unnamed_value :
    (validateRules (.arr [negRuleJson])).2 = none ∧
    numFieldAt (validateRules (.arr [negRuleJson])).1 0 "cooldown_seconds" = some (mkRat (-5) 1) ∧
    mkRat (-5) 1 < 0 ∧
    (validateRules (.arr [boolRuleJson])).2
      = some "Rule #1 has an invalid type for 'delay_seconds'. Expected a number or a numeric string." := by
  exact ⟨by decide, by decide, by decide, by decide⟩

/-- C6 (amended): for each optional numeric field, `validateRules`
coerces in place a numeric string to the number it denotes (`"10"` to
`10`, `"5.5"` to `11/2`), rejects a non-numeric string with an error
naming the field and the received value, rejects any other non-number
type with an error naming the field (but not the value), and on
success every present numeric field of the returned rules holds a
number — which may be negative. -/
theorem C6_amended_numeric_field_validation :
    (∀ (items out : List JsonValue), validateRules (.arr items) = (.arr out, none) →
      numericFieldsOk (.arr out) = true) ∧
    (validateRules (.arr [goodRuleJson])).2 = none ∧
    numFieldAt (validateRules (.arr [goodRuleJson])).1 0 "cooldown_seconds" = some (mkRat 10 1) ∧
    numFieldAt (validateRules (.arr [goodRuleJson])).1 0 "delay_seconds" = some (mkRat 11 2) ∧
    (validateRules (.arr [abcRuleJson])).2
      = some "Rule #1 has a non-numeric string for 'cooldown_seconds': 'abc'." := by
  refine ⟨?_, by decide, by decide, by decide, by decide⟩
  intro items out h
  have h2 : ((JsonValue.arr (validateLoop 0 items).1, (validateLoop 0 items).2) :
      JsonValue × Option String) = (JsonValue.arr out, none) := h
  rcases hloop : validateLoop 0 items with ⟨items', e⟩
  rw [hloop] at h2
  have hout : items' = out := by
    have harr := ((Prod.mk.injEq _ _ _ _).mp h2).1
    injection harr
  have he : e = none := ((Prod.mk.injEq _ _ _ _).mp h2).2
  subst hout
  subst he
  simp only [numericFieldsOk]
  rw [List.all_eq_true]
  intro r hr
  have hok := validateLoop_ok items 0 items' hloop r hr
  simp [hok.1, hok.2]

/-- Witness for C6 (amended): the success clause applied to the
concrete validated array. -/
theorem C6_amended_numeric_field_validation_witness :
    validateRules (.arr [negRuleJson]) = (.arr [negRuleJson], none) ∧
    numericFieldsOk (.arr [negRuleJson]) = true := by
  have h1 : validateRules (.arr [negRuleJson]) = (.arr [negRuleJson], none) := rfl
  exact ⟨h1, C6_amended_numeric_field_validation.1 [negRuleJson] [negRuleJson] h1⟩

end AM
